import Mathlib

/-!
# Debugger attachment handshake (`runtime/debugger.cpp`)

A shallow embedding of the message framing codec (`read_message`), the
handshake orchestrator (`initialize_debugger`, `maybe_init_debugger`), the
override path (`dbg_set_content_path`, `replacement_script_path`) and the
scripted socket verb `TCPSocket::connect`, together with the properties the
specification states about them.

Modelling choices:

* Bytes are natural numbers (character codes); a chunk is a list of bytes and
  the null `HostString` is `none`.
* The host socket API and the script engine are the environment.  Their
  outcomes are read from a finite script of answers (`World`), and every call
  is recorded, in order, in `World.log`.
* `strtoul` and `std::stoi` follow the C and C++ standards in base 10, on a
  NUL-terminated buffer; `unsigned long` is 32 bits wide.
* `uint16_t` variables hold their value modulo 65536.
-/

namespace Debugger

/-! ## Bytes and the C number scanner -/

/-- The character codes of a text. -/
def bytes (s : String) : List Nat := s.toList.map Char.toNat

/-- The newline character. -/
def NL : Nat := 10

/-- C `isspace` in the "C" locale: space, `\t`, `\n`, `\v`, `\f`, `\r`. -/
def isSpace (c : Nat) : Bool := c == 32 || (9 ≤ c && c ≤ 13)

/-- C `isdigit`. -/
def isDigit (c : Nat) : Bool := 48 ≤ c && c ≤ 57

/-- Value of a run of decimal digits, most significant first. -/
def digitsValue (ds : List Nat) : Nat := ds.foldl (fun acc c => 10 * acc + (c - 48)) 0

/-- Largest `unsigned long`; the runtime is built for wasm32, where the type
is 32 bits wide. -/
def ULONG_MAX : Nat := 4294967295

/-- Subject sequence of the C `strto*` family in base 10: leading white space
is skipped, one optional sign is accepted, then the longest run of decimal
digits is taken.  Returns the sign, the digits and the index just past them;
`none` when there is no digit (no conversion is performed). -/
def scanNumber (s : List Nat) : Option (Bool × List Nat × Nat) :=
  let ws := (s.takeWhile isSpace).length
  let afterWs := s.drop ws
  let neg := afterWs.head? == some 45
  let sign := if afterWs.head? == some 45 || afterWs.head? == some 43 then 1 else 0
  let ds := (afterWs.drop sign).takeWhile isDigit
  if ds.isEmpty then none else some (neg, ds, ws + sign + ds.length)

/-- C `strtoul(s, &end, 10)` on a NUL-terminated buffer holding `s`: the
converted value and the offset of `end` from the start of the buffer.  With
no conversion the value is 0 and `end` is the start.  A value that does not
fit saturates to `ULONG_MAX`; a leading minus negates in `unsigned long`. -/
def strtoul (s : List Nat) : Nat × Nat :=
  match scanNumber s with
  | none => (0, 0)
  | some (neg, ds, e) =>
    let v := digitsValue ds
    if v > ULONG_MAX then (ULONG_MAX, e)
    else if neg then ((ULONG_MAX + 1 - v) % (ULONG_MAX + 1), e)
    else (v, e)

/-- The byte a `char *` at offset `i` of the buffer points to; the buffer is
NUL-terminated, so the position just past the chunk reads 0. -/
def byteAt (chunk : List Nat) (i : Nat) : Nat := chunk.getD i 0

/-- The decimal numeral of `n`, most significant digit first, built with the
given recursion budget. -/
def decimalCore : Nat → Nat → List Nat → List Nat
  | 0, _, acc => acc
  | fuel + 1, n, acc =>
    if n / 10 = 0 then (48 + n % 10) :: acc
    else decimalCore fuel (n / 10) ((48 + n % 10) :: acc)

/-- The decimal numeral of `n` (no sign, no leading zeros), as bytes. -/
def decimal (n : Nat) : List Nat := decimalCore (n + 1) n []

/-! ## The environment: host sockets and the script engine -/

/-- Operator-facing notices printed by the handshake. -/
inductive Notice
  | brokerConnect (port : Nat)
  | sessionPort
  | invalidSessionPort (response : List Nat)
  | sessionConnect (session_port : Nat)
  | debuggerScript
  deriving DecidableEq, Repr

/-- What the handshake does to its environment, in order. -/
inductive Event
  | make (handle : Option Nat)
  | connect (sock : Nat) (address : Nat × Nat × Nat × Nat) (port : Nat) (ok : Bool)
  | send (sock : Nat) (data : List Nat) (ok : Bool)
  | receive (sock : Nat) (max : Nat) (result : Option (List Nat))
  | close (sock : Nat)
  | print (notice : Notice)
  | compile (source : List Nat) (ok : Bool)
  | execute (source : List Nat) (ok : Bool)
  deriving DecidableEq, Repr

/-- Outcomes of the script-engine calls of the context bootstrap. -/
structure Engine where
  newGlobalObject : Bool
  defineDebuggerObject : Bool
  defineFunctions : Bool
  initClass : Bool
  fromSocket : Bool
  defineSocket : Bool
  defineFlag : Bool
  sourceInit : Bool
  compile : List Nat → Bool
  execute : List Nat → Bool

/-- Modelled from the spec: `host_api::TCPSocket` (declared in `sockets.h`,
outside this file), the blocking byte-stream primitive with `make`,
`connect(address, port) -> bool`, `send(bytes) -> bool`,
`receive(maxBytes) -> bytes|closed` and `close()`.  The environment is a
finite script: the outcomes of the successive calls of each kind, in call
order.  A call whose script is exhausted fails. -/
structure World where
  makes : List Bool
  connects : List Bool
  sends : List Bool
  recvs : List (Option (List Nat))
  engine : Engine
  sockets : Nat
  log : List Event

namespace World

/-- `host_api::TCPSocket::make`: a fresh handle, or null. -/
def make (w : World) : Option Nat × World :=
  match w.makes with
  | true :: ms =>
    (some w.sockets,
      { w with makes := ms, sockets := w.sockets + 1, log := w.log ++ [Event.make (some w.sockets)] })
  | _ => (none, { w with makes := w.makes.tail, log := w.log ++ [Event.make none] })

/-- `socket->connect(address, port)`. -/
def connect (w : World) (sock : Nat) (address : Nat × Nat × Nat × Nat) (port : Nat) :
    Bool × World :=
  let ok := w.connects.head? == some true
  (ok, { w with connects := w.connects.tail, log := w.log ++ [Event.connect sock address port ok] })

/-- `socket->send(data)`. -/
def send (w : World) (sock : Nat) (data : List Nat) : Bool × World :=
  let ok := w.sends.head? == some true
  (ok, { w with sends := w.sends.tail, log := w.log ++ [Event.send sock data ok] })

/-- `socket->receive(max)`: the next chunk, or null. -/
def receive (w : World) (sock : Nat) (max : Nat) : Option (List Nat) × World :=
  let r := w.recvs.head?.join
  (r, { w with recvs := w.recvs.tail, log := w.log ++ [Event.receive sock max r] })

/-- `socket->close()`. -/
def close (w : World) (sock : Nat) : World :=
  { w with log := w.log ++ [Event.close sock] }

/-- Write a notice to the console. -/
def print (w : World) (n : Notice) : World :=
  { w with log := w.log ++ [Event.print n] }

/-- `JS::Compile`. -/
def compile (w : World) (source : List Nat) : Bool × World :=
  (w.engine.compile source,
    { w with log := w.log ++ [Event.compile source (w.engine.compile source)] })

/-- `JS_ExecuteScript`. -/
def execute (w : World) (source : List Nat) : Bool × World :=
  (w.engine.execute source,
    { w with log := w.log ++ [Event.execute source (w.engine.execute source)] })

end World

/-! ## Message framing codec -/

/-- The `while (message.size() < message_length)` loop of `read_message`.
Every iteration consumes one scripted receive outcome, so a budget above the
number of pending outcomes is never used up (`read_message_loop_trace`): the
first equation is not reached from `read_message`. -/
def read_message_loop (sock : Nat) (message_length : Nat) :
    Nat → World → List Nat → Option (List Nat) × World
  | 0, w, _ => (none, w)
  | fuel + 1, w, message =>
    if message.length < message_length then
      match w.receive sock (message_length - message.length) with
      | (none, w1) => (none, w1)
      | (some chunk, w1) => read_message_loop sock message_length fuel w1 (message ++ chunk)
    else (some message, w)

/-- `debugging_socket::read_message`: `none` is the null `HostString`. -/
def read_message (w : World) (sock : Nat) : Option (List Nat) × World :=
  match w.receive sock 128 with
  | (none, w1) => (none, w1)
  | (some chunk, w1) =>
    let r := strtoul chunk
    let message_length := r.1 % 65536
    if r.2 = 0 ∨ byteAt chunk r.2 ≠ NL then (none, w1)
    else read_message_loop sock message_length (w1.recvs.length + 1) w1 (chunk.drop (r.2 + 1))

/-! ## Handshake orchestrator -/

/-- The context bootstrap of `initialize_debugger` (from `JS::RealmOptions
options` to the final `return true`): the isolated global is created, the
capability set installed, and the fetched script compiled and executed once.
Every engine failure returns `false`. -/
def contextBootstrap (w : World) (debugging_script : List Nat) : Bool × World :=
  if !w.engine.newGlobalObject then (false, w)
  else if !w.engine.defineDebuggerObject then (false, w)
  else if !w.engine.defineFunctions then (false, w)
  else if !w.engine.initClass then (false, w)
  else if !w.engine.fromSocket then (false, w)
  else if !w.engine.defineSocket then (false, w)
  else if !w.engine.defineFlag then (false, w)
  else if !w.engine.sourceInit then (false, w)
  else
    match w.compile debugging_script with
    | (false, w1) => (false, w1)
    | (true, w1) =>
      match w1.execute debugging_script with
      | (false, w2) => (false, w2)
      | (true, w2) => (true, w2)

/-- The script fetch of `initialize_debugger`: the framed script is read from
the session socket and, when the read succeeds, the context bootstrap runs. -/
def scriptFetch (w : World) (socket : Nat) : Option Bool × World :=
  match read_message w socket with
  | (none, w1) => (some true, w1.print Notice.debuggerScript)
  | (some debugging_script, w1) =>
    let r := contextBootstrap w1 debugging_script
    (some r.1, r.2)

/-- The session half of `initialize_debugger`, from the second
`TCPSocket::make` on. -/
def sessionPhase (w : World) (session_port : Nat) : Option Bool × World :=
  match w.make with
  | (none, w1) => (none, w1)
  | (some socket, w1) =>
    match w1.connect socket (127, 0, 0, 1) session_port with
    | (false, w2) => (some true, w2.print (Notice.sessionConnect session_port))
    | (true, w2) =>
      match w2.send socket (bytes ("get-debugger")) with
      | (false, w3) => (some true, w3.print (Notice.sessionConnect session_port))
      | (true, w3) => scriptFetch w3 socket

/-- `initialize_debugger(cx, port, content_already_initialized)`.  The result
is the returned `bool`; `none` means a `MOZ_RELEASE_ASSERT` on a null socket
ended the process.  `port` is a `uint16_t`, and so is `session_port`: the
value of `strtoul` is reduced modulo 65536 when it is stored.  The flag
`content_already_initialized` only becomes the value of a property of the
debugger global and does not steer the handshake. -/
def initialize_debugger (w : World) (port : Nat) (_content_already_initialized : Bool) :
    Option Bool × World :=
  match w.make with
  | (none, w1) => (none, w1)
  | (some socket, w1) =>
    match w1.connect socket (127, 0, 0, 1) port with
    | (false, w2) => (some true, w2.print (Notice.brokerConnect port))
    | (true, w2) =>
      match w2.send socket (bytes ("get-session-port")) with
      | (false, w3) => (some true, w3.print (Notice.brokerConnect port))
      | (true, w3) =>
        match w3.receive socket 128 with
        | (none, w4) => (some true, w4.print Notice.sessionPort)
        | (some response, w4) =>
          let r := strtoul response
          let session_port := r.1 % 65536
          if r.2 ≠ response.length ∨ session_port > 65535 then
            (some true, w4.print (Notice.invalidSessionPort response))
          else sessionPhase (w4.close socket) session_port

/-- How the process stands. -/
inductive Status
  | running
  | exited (code : Nat)
  | aborted
  deriving DecidableEq, Repr

/-- The process: the environment and the two globals of the file,
`debugger_initialized` and `main_path`. -/
structure Process where
  world : World
  debugger_initialized : Bool
  main_path : Option (List Nat)
  status : Status

/-- C++ `std::stoi`: the `strtol` subject sequence in base 10; `none` stands
for the exception thrown when there is no conversion or the value does not
fit an `int`. -/
def stoi (s : List Nat) : Option Int :=
  match scanNumber s with
  | none => none
  | some (neg, ds, _) =>
    let v : Int := if neg then - (digitsValue ds : Int) else (digitsValue ds : Int)
    if v < -2147483648 ∨ 2147483647 < v then none else some v

/-- `content_debugger::maybe_init_debugger`; `port_str` is the value of
`getenv("DEBUGGER_PORT")` at the call.  The `int` is stored in a `uint32_t`
and passed as a `uint16_t`. -/
def maybe_init_debugger (port_str : Option (List Nat)) (content_already_initialized : Bool)
    (p : Process) : Process :=
  if p.debugger_initialized then p
  else
    let p1 := { p with debugger_initialized := true }
    match port_str with
    | none => p1
    | some str =>
      match stoi str with
      | none => { p1 with status := Status.aborted }
      | some v =>
        let port := (v % 4294967296).toNat
        match initialize_debugger p1.world (port % 65536) content_already_initialized with
        | (none, w) => { p1 with world := w, status := Status.aborted }
        | (some false, w) => { p1 with world := w, status := Status.exited 1 }
        | (some true, w) => { p1 with world := w }

/-! ## Override path -/

/-- The `std::string` built from a `char *`: the bytes before the first NUL. -/
def cString (buf : List Nat) : List Nat := buf.takeWhile (fun c => c != 0)

/-- `dbg_set_content_path`: `encode` is `core::encode` (declared in
`encode.h`), which yields the UTF-8 bytes of the text of the argument or
fails.  `main_path = path.ptr.release()` assigns a `char *` to an
`optional<std::string>`. -/
def dbg_set_content_path {V : Type} (encode : V → Option (List Nat)) (arg : V) (p : Process) :
    Bool × Process :=
  match encode arg with
  | none => (false, p)
  | some path => (true, { p with main_path := some (cString path) })

/-- `content_debugger::replacement_script_path`. -/
def replacement_script_path (p : Process) : Option (List Nat) := p.main_path

/-- A sequence of `setContentPath` calls made by the debugger script. -/
def setContentPaths {V : Type} (encode : V → Option (List Nat)) (args : List V) (p : Process) :
    Process :=
  args.foldl (fun q a => (dbg_set_content_path encode a q).2) p

/-! ## Socket capability object -/

/-- The errors of `namespace SocketErrors`. -/
inductive SocketError
  | SocketCreationFailed
  | InvalidAddress
  | InvalidPort
  | ConnectFailed
  | SendFailed
  deriving DecidableEq, Repr

/-- Outcome of a native method: it returned `true`, it threw one of the
socket errors, or `METHOD_HEADER` rejected the call. -/
inductive MethodResult
  | returned
  | threw (e : SocketError)
  | headerFailed
  deriving DecidableEq, Repr

/-- The engine conversions `TCPSocket::connect` calls, on values of type `V`:
`isObject`, `JS_GetElement`, `ToUint8` and `ToUint16` (`none` is failure). -/
structure ValueApi (V : Type) where
  isObject : V → Bool
  getElement : V → Nat → Option V
  toUint8 : V → Option Nat
  toUint16 : V → Option Nat

/-- The `||` chain of `TCPSocket::connect` that reads elements 0 to 3 of the
address object and converts each with `ToUint8`. -/
def readAddress {V : Type} (api : ValueApi V) (address_array : V) :
    Option (Nat × Nat × Nat × Nat) :=
  match api.getElement address_array 0 with
  | none => none
  | some e0 =>
    match api.toUint8 e0 with
    | none => none
    | some a0 =>
      match api.getElement address_array 1 with
      | none => none
      | some e1 =>
        match api.toUint8 e1 with
        | none => none
        | some a1 =>
          match api.getElement address_array 2 with
          | none => none
          | some e2 =>
            match api.toUint8 e2 with
            | none => none
            | some a2 =>
              match api.getElement address_array 3 with
              | none => none
              | some e3 =>
                match api.toUint8 e3 with
                | none => none
                | some a3 => some (a0, a1, a2, a3)

/-- `debugging_socket::TCPSocket::connect`, called on the socket `self` with
arguments `args[0]` and `args[1]`; `headerOk` is the outcome of
`METHOD_HEADER(2)` (receiver and argument-count check, defined outside this
file). -/
def TCPSocket.connect {V : Type} (api : ValueApi V) (w : World) (self : Nat) (headerOk : Bool)
    (arg0 arg1 : V) : MethodResult × World :=
  if !headerOk then (MethodResult.headerFailed, w)
  else if !api.isObject arg0 then (MethodResult.threw SocketError.InvalidAddress, w)
  else
    match readAddress api arg0 with
    | none => (MethodResult.threw SocketError.InvalidAddress, w)
    | some address =>
      match api.toUint16 arg1 with
      | none => (MethodResult.threw SocketError.InvalidPort, w)
      | some port =>
        match w.connect self address port with
        | (false, w1) => (MethodResult.threw SocketError.ConnectFailed, w1)
        | (true, w1) => (MethodResult.returned, w1)

/-! ## A small script-value model for examples -/

/-- Primitive script values: `undefined`, an integer-valued number, a symbol. -/
inductive JSPrim
  | undefined
  | number (n : Int)
  | symbol
  deriving DecidableEq, Repr

/-- Script values: a primitive, or an array object of primitives. -/
inductive JSVal
  | prim (v : JSPrim)
  | array (elems : List JSPrim)
  deriving DecidableEq, Repr

/-- ECMAScript `ToNumber` on the modelled values: `none` is a thrown
`TypeError` (symbols), `some none` is `NaN`.  An array converts through its
text: the empty array and `[undefined]` give 0, a one-number array gives the
number, any other array gives `NaN`; an array holding a symbol throws. -/
def toNumber : JSVal → Option (Option Int)
  | JSVal.prim JSPrim.undefined => some none
  | JSVal.prim (JSPrim.number n) => some (some n)
  | JSVal.prim JSPrim.symbol => none
  | JSVal.array es =>
    if es.contains JSPrim.symbol then none
    else
      match es with
      | [] => some (some 0)
      | [JSPrim.undefined] => some (some 0)
      | [JSPrim.number n] => some (some n)
      | _ => some none

/-- ECMAScript `ToUint8` / `ToUint16`: `NaN` converts to 0, a number is
reduced modulo `2 ^ bits`. -/
def toUint (bits : Nat) (v : JSVal) : Option Nat :=
  match toNumber v with
  | none => none
  | some none => some 0
  | some (some n) => some (n % (2 ^ bits : Int)).toNat

/-- The engine conversions on the modelled values; an index past the end of
an array reads `undefined`. -/
def jsApi : ValueApi JSVal where
  isObject := fun v => match v with
    | JSVal.array _ => true
    | JSVal.prim _ => false
  getElement := fun v i => match v with
    | JSVal.array es => some (JSVal.prim (es.getD i JSPrim.undefined))
    | JSVal.prim _ => none
  toUint8 := toUint 8
  toUint16 := toUint 16

/-- The array of the given numbers. -/
def jsArray (ns : List Int) : JSVal := JSVal.array (ns.map JSPrim.number)

/-- The number `n` as a script value. -/
def jsNumber (n : Int) : JSVal := JSVal.prim (JSPrim.number n)

/-! ## Concrete environments used in examples -/

/-- An engine in which every bootstrap step succeeds. -/
def okEngine : Engine :=
  ⟨true, true, true, true, true, true, true, true, fun _ => true, fun _ => true⟩

/-- A fresh world with the given scripts of outcomes. -/
def mkWorld (makes connects sends : List Bool) (recvs : List (Option (List Nat))) : World :=
  { makes := makes, connects := connects, sends := sends, recvs := recvs,
    engine := okEngine, sockets := 0, log := [] }

/-- A world in which only receive outcomes are scripted. -/
def recvWorld (recvs : List (Option (List Nat))) : World := mkWorld [] [] [] recvs

/-- The process at start-up. -/
def initialProcess (w : World) : Process :=
  { world := w, debugger_initialized := false, main_path := none, status := Status.running }

/-! ## The shape of a run of the codec -/

/-- The runs of the receive loop of `read_message`, started with `message`
accumulated and `N` bytes expected: the receive events it appends to the log
and the result.  Every follow-up receive asks for `N - message.length`
bytes, and a failed receive ends the run. -/
inductive LoopTrace (sock N : Nat) : List Nat → List Event → Option (List Nat) → Prop
  | done (message : List Nat) (h : N ≤ message.length) :
      LoopTrace sock N message [] (some message)
  | failed (message : List Nat) (h : message.length < N) :
      LoopTrace sock N message [Event.receive sock (N - message.length) none] none
  | step (message c : List Nat) (evs : List Event) (r : Option (List Nat))
      (h : message.length < N) (t : LoopTrace sock N (message ++ c) evs r) :
      LoopTrace sock N message (Event.receive sock (N - message.length) (some c) :: evs) r

/-- A receive returned no more bytes than were asked for. -/
def respectsMax : Event → Bool
  | Event.receive _ max (some c) => c.length ≤ max
  | _ => true

/-- A socket call that failed: a connect or a send that returned `false`, a
receive that returned null. -/
def Event.failed : Event → Bool
  | Event.connect _ _ _ ok => !ok
  | Event.send _ _ ok => !ok
  | Event.receive _ _ r => r.isNone
  | _ => false

/-- A receive event. -/
def Event.isReceive : Event → Bool
  | Event.receive _ _ _ => true
  | _ => false

/-- A console notice. -/
def Event.isPrint : Event → Bool
  | Event.print _ => true
  | _ => false

/-- The runs of `read_message`: the first receive of up to 128 bytes fails,
or its chunk has no acceptable length line, or the loop runs on the rest of
the chunk with the announced length reduced to 16 bits. -/
inductive ReadTrace (sock : Nat) : List Event → Option (List Nat) → Prop
  | closed : ReadTrace sock [Event.receive sock 128 none] none
  | rejected (chunk : List Nat)
      (h : (strtoul chunk).2 = 0 ∨ byteAt chunk (strtoul chunk).2 ≠ NL) :
      ReadTrace sock [Event.receive sock 128 (some chunk)] none
  | framed (chunk : List Nat) (evs : List Event) (r : Option (List Nat))
      (h : ¬ ((strtoul chunk).2 = 0 ∨ byteAt chunk (strtoul chunk).2 ≠ NL))
      (t : LoopTrace sock ((strtoul chunk).1 % 65536) (chunk.drop ((strtoul chunk).2 + 1)) evs r) :
      ReadTrace sock (Event.receive sock 128 (some chunk) :: evs) r

/-- The length line as the specification words it: the bytes before the first
newline of the chunk are a non-empty run of decimal digits, and the chunk
does hold a newline. -/
def purelyNumericLine (chunk : List Nat) : Bool :=
  let line := chunk.takeWhile (fun c => c != NL)
  !line.isEmpty && line.all isDigit && decide (line.length < chunk.length)

/-- Drop one leading `+` or `-`. -/
def stripSign : List Nat → List Nat
  | [] => []
  | c :: t => if c = 45 ∨ c = 43 then t else c :: t

/-- The length line as `strtoul` reads it: optional white space, an optional
sign, then a purely numeric line. -/
def lenientLine (chunk : List Nat) : Bool :=
  purelyNumericLine (stripSign (chunk.dropWhile isSpace))

/-- The follow-up receives of a frame of `N` bytes, checked against the log:
with `acc` payload bytes accumulated so far, each receive is on the socket,
asks for exactly `N - acc` bytes, and that request lies between 1 and `N`. -/
def followUpsOk (sock N : Nat) : Nat → List Event → Bool
  | _, [] => true
  | acc, Event.receive s max r :: evs =>
    s == sock && max == N - acc && decide (1 ≤ max) && decide (max ≤ N)
      && followUpsOk sock N (acc + (r.getD []).length) evs
  | _, _ :: _ => false

/-- A receive that returned between 1 and the requested number of bytes. -/
def goodChunk : Event → Bool
  | Event.receive _ max (some c) => decide (1 ≤ c.length) && decide (c.length ≤ max)
  | _ => false

/-- The bytes a scripted stream delivers before its first failure. -/
def streamBytes : List (Option (List Nat)) → List Nat
  | some c :: t => c ++ streamBytes t
  | _ => []

/-! ## Failing steps of the handshake -/

/-- A broker reply that the decimal parse does not consume in full. -/
def Event.rejectedReply : Event → Bool
  | Event.receive _ _ (some r) => (strtoul r).2 != r.length
  | _ => false

/-- A first chunk of the framed script whose length line is not accepted. -/
def Event.rejectedFrame : Event → Bool
  | Event.receive _ _ (some c) => (strtoul c).2 == 0 || byteAt c (strtoul c).2 != NL
  | _ => false

/-- A compile or execute of a script. -/
def Event.isEngine : Event → Bool
  | Event.compile _ _ => true
  | Event.execute _ _ => true
  | _ => false

/-- The step `e` of a handshake fails, `k` receives having been made before
it: a connect, send or receive fails; or `e` is the first receive (the broker
reply) and the reply is not consumed in full; or `e` is the second receive
(the first chunk of the framed script) and its length line is rejected. -/
def failsAt (k : Nat) (e : Event) : Bool :=
  e.failed || (k == 0 && e.rejectedReply) || (k == 1 && e.rejectedFrame)

/-- Number of receives among the events. -/
def receiveCount (evs : List Event) : Nat := evs.countP Event.isReceive

/-- After every failing step only notices follow (`k` receives made before
the events). -/
def quietAfterFailure : Nat → List Event → Bool
  | _, [] => true
  | k, e :: rest =>
    (if failsAt k e then rest.all Event.isPrint else true)
      && quietAfterFailure (k + (if e.isReceive then 1 else 0)) rest

/-- No step fails (`k` receives made before the events). -/
def noFailure : Nat → List Event → Bool
  | _, [] => true
  | k, e :: rest => !failsAt k e && noFailure (k + (if e.isReceive then 1 else 0)) rest

/-- What a run can be after `k` receives: it degraded (it returned `true`,
only notices follow a failing step, nothing was compiled or executed), or no
step of it failed. -/
def RunOk (k : Nat) (res : Option Bool) (evs : List Event) : Prop :=
  (res = some true ∧ quietAfterFailure k evs = true ∧ ∀ x ∈ evs, x.isEngine = false)
    ∨ noFailure k evs = true

/-! ## Lemmas on the number scanner -/

theorem digitsValue_append (ds : List Nat) (d : Nat) :
    digitsValue (ds ++ [d]) = 10 * digitsValue ds + (d - 48) := by
  simp [digitsValue, List.foldl_append]

theorem decimalCore_spec (fuel : Nat) : ∀ (n : Nat) (acc : List Nat), n < fuel →
    ∃ ds : List Nat, decimalCore fuel n acc = ds ++ acc ∧ ds ≠ [] ∧
      (∀ d ∈ ds, isDigit d = true) ∧ digitsValue ds = n := by
  induction fuel with
  | zero => intro n acc h; omega
  | succ fuel ih =>
    intro n acc h
    unfold decimalCore
    by_cases h0 : n / 10 = 0
    · refine ⟨[48 + n % 10], ?_, by simp, ?_, ?_⟩
      · simp [h0]
      · intro d hd
        simp only [List.mem_singleton] at hd
        subst hd
        simp [isDigit]
        omega
      · simp [digitsValue]
        omega
    · obtain ⟨ds, h1, _, h3, h4⟩ := ih (n / 10) ((48 + n % 10) :: acc) (by omega)
      refine ⟨ds ++ [48 + n % 10], ?_, by simp, ?_, ?_⟩
      · simp [h0, h1]
      · intro d hd
        rcases List.mem_append.mp hd with hd | hd
        · exact h3 d hd
        · simp only [List.mem_singleton] at hd
          subst hd
          simp [isDigit]
          omega
      · rw [digitsValue_append, h4]
        omega

/-- The decimal numeral is a non-empty run of digits whose value is the number. -/
theorem decimal_spec (n : Nat) :
    decimal n ≠ [] ∧ (∀ d ∈ decimal n, isDigit d = true) ∧ digitsValue (decimal n) = n := by
  obtain ⟨ds, h1, h2, h3, h4⟩ := decimalCore_spec (n + 1) n [] (by omega)
  have : decimal n = ds := by simp [decimal, h1]
  rw [this]
  exact ⟨h2, h3, h4⟩

theorem takeWhile_digits_append (ds rest : List Nat) (hd : ∀ d ∈ ds, isDigit d = true)
    (hr : ∀ c, rest.head? = some c → isDigit c = false) :
    (ds ++ rest).takeWhile isDigit = ds := by
  induction ds with
  | nil =>
    cases rest with
    | nil => rfl
    | cons c cs => simp [List.takeWhile, hr c (by simp)]
  | cons d ds ih =>
    have h1 : isDigit d = true := hd d (by simp)
    have h2 := ih (fun x hx => hd x (by simp [hx]))
    simp [List.takeWhile_cons, h1, h2]

theorem isDigit_not_space {d : Nat} (h : isDigit d = true) : isSpace d = false := by
  simp [isDigit] at h
  simp [isSpace]
  omega

/-- Scanning a non-empty run of digits followed by a non-digit. -/
theorem scanNumber_digits (ds rest : List Nat) (hne : ds ≠ [])
    (hd : ∀ d ∈ ds, isDigit d = true) (hr : ∀ c, rest.head? = some c → isDigit c = false) :
    scanNumber (ds ++ rest) = some (false, ds, ds.length) := by
  cases ds with
  | nil => exact absurd rfl hne
  | cons d ds =>
    have h1 : isDigit d = true := hd d (by simp)
    have h2 : isSpace d = false := isDigit_not_space h1
    have h45 : d ≠ 45 := by
      intro h; subst h; simp [isDigit] at h1
    have h43 : d ≠ 43 := by
      intro h; subst h; simp [isDigit] at h1
    have htw := takeWhile_digits_append (d :: ds) rest hd hr
    simp only [List.cons_append] at htw
    simp [scanNumber, List.takeWhile, h2, h45, h43, htw]

/-- `strtoul` on a decimal numeral followed by a non-digit. -/
theorem strtoul_decimal (n : Nat) (rest : List Nat) (hn : n ≤ ULONG_MAX)
    (hr : ∀ c, rest.head? = some c → isDigit c = false) :
    strtoul (decimal n ++ rest) = (n, (decimal n).length) := by
  obtain ⟨h1, h2, h3⟩ := decimal_spec n
  have hgt : ¬ n > ULONG_MAX := by omega
  simp [strtoul, scanNumber_digits (decimal n) rest h1 h2 hr, h3, hgt]

theorem byteAt_append_cons (ds : List Nat) (c : Nat) (rest : List Nat) :
    byteAt (ds ++ c :: rest) ds.length = c := by
  induction ds with
  | nil => simp [byteAt]
  | cons d ds ih => simpa [byteAt] using ih

/-! ## Lemmas on the receive loop -/

theorem receive_some (w : World) (sock max : Nat) (c : List Nat)
    (tail : List (Option (List Nat))) (h : w.recvs = some c :: tail) :
    w.receive sock max =
      (some c, { w with recvs := tail, log := w.log ++ [Event.receive sock max (some c)] }) := by
  simp [World.receive, h]

/-- With the remaining payload scripted as successive chunks, the loop returns
the accumulated message followed by those chunks. -/
theorem read_message_loop_chunks (sock N : Nat) (tail : List (Option (List Nat))) :
    ∀ (later : List (List Nat)) (fuel : Nat) (w : World) (message : List Nat),
      w.recvs = later.map some ++ tail → later.length < fuel →
      (message ++ later.flatten).length = N →
      (read_message_loop sock N fuel w message).1 = some (message ++ later.flatten) := by
  intro later
  induction later with
  | nil =>
    intro fuel w message _ hf hlen
    cases fuel with
    | zero => simp at hf
    | succ fuel =>
      simp at hlen
      simp [read_message_loop, hlen]
  | cons c later ih =>
    intro fuel w message hw hf hlen
    cases fuel with
    | zero => simp at hf
    | succ fuel =>
      unfold read_message_loop
      by_cases hlt : message.length < N
      · have hr := receive_some w sock (N - message.length) c (later.map some ++ tail)
          (by simpa using hw)
        simp only [hlt, if_true, hr]
        have := ih fuel
          { w with recvs := later.map some ++ tail,
                   log := w.log ++ [Event.receive sock (N - message.length) (some c)] }
          (message ++ c) rfl (by simpa using hf) (by simpa using hlen)
        simpa using this
      · have hc : (c ++ later.flatten) = [] := by
          simp only [List.flatten_cons, List.length_append] at hlen
          apply List.eq_nil_of_length_eq_zero
          simp only [List.length_append]
          omega
        simp only [hlt, if_false, List.flatten_cons, hc, List.append_nil]

/-- Once the message is long enough the loop returns it without a receive. -/
theorem read_message_loop_done (sock N fuel : Nat) (w : World) (message : List Nat)
    (h : N ≤ message.length) :
    read_message_loop sock N (fuel + 1) w message = (some message, w) := by
  have : ¬ message.length < N := by omega
  simp [read_message_loop, this]

/-- A first chunk that starts with the decimal numeral of `n` and a newline
is accepted: the loop starts with the rest of the chunk as the message and
`n` reduced to 16 bits as the expected length. -/
theorem read_message_first_chunk (n : Nat) (rest0 : List Nat) (w : World) (sock : Nat)
    (tail : List (Option (List Nat))) (hn : n ≤ ULONG_MAX)
    (hw : w.recvs = some (decimal n ++ NL :: rest0) :: tail) :
    read_message w sock =
      read_message_loop sock (n % 65536) (tail.length + 1)
        { w with recvs := tail,
                 log := w.log ++ [Event.receive sock 128 (some (decimal n ++ NL :: rest0))] }
        rest0 := by
  have hst : strtoul (decimal n ++ NL :: rest0) = (n, (decimal n).length) :=
    strtoul_decimal n (NL :: rest0) hn (by intro c hc; simp at hc; subst hc; decide)
  have hne : (decimal n).length ≠ 0 := by
    intro h
    exact (decimal_spec n).1 (List.eq_nil_of_length_eq_zero h)
  have hr := receive_some w sock 128 (decimal n ++ NL :: rest0) tail hw
  have hdrop : (decimal n ++ NL :: rest0).drop ((decimal n).length + 1) = rest0 := by
    rw [← List.drop_drop]
    simp
  unfold read_message
  simp only [hr, hst, byteAt_append_cons, hne, ne_eq, not_true_eq_false, or_self,
    if_false, hdrop]

/-- The environment after a receive. -/
theorem receive_world (w : World) (sock max : Nat) :
    (w.receive sock max).2 =
      { w with recvs := w.recvs.tail,
               log := w.log ++ [Event.receive sock max (w.receive sock max).1] } := rfl

/-- A receive that returns a chunk takes it from the head of the script. -/
theorem receive_eq_some (w : World) (sock max : Nat) (c : List Nat)
    (h : (w.receive sock max).1 = some c) : w.recvs = some c :: w.recvs.tail := by
  cases hr : w.recvs with
  | nil => simp [World.receive, hr] at h
  | cons x t =>
    cases x with
    | none => simp [World.receive, hr] at h
    | some d =>
      simp [World.receive, hr] at h
      simp [h]

/-- Every run of the loop is a `LoopTrace`: the log grows by the events of
the trace and nothing but the receive script and the log changes. -/
theorem read_message_loop_trace (sock N : Nat) :
    ∀ (fuel : Nat) (w : World) (message : List Nat), w.recvs.length < fuel →
      ∃ evs : List Event,
        (read_message_loop sock N fuel w message).2.log = w.log ++ evs ∧
        LoopTrace sock N message evs (read_message_loop sock N fuel w message).1 := by
  intro fuel
  induction fuel with
  | zero => intro w message h; omega
  | succ fuel ih =>
    intro w message hf
    unfold read_message_loop
    by_cases hlt : message.length < N
    · simp only [hlt, if_true]
      cases hr : (w.receive sock (N - message.length)).1 with
      | none =>
        refine ⟨[Event.receive sock (N - message.length) none], ?_, ?_⟩
        · have h2 := receive_world w sock (N - message.length)
          rw [hr] at h2
          have : w.receive sock (N - message.length) =
              (none, (w.receive sock (N - message.length)).2) := by
            rw [← hr]
          rw [this]
          simp only [h2]
        · have : w.receive sock (N - message.length) =
              (none, (w.receive sock (N - message.length)).2) := by
            rw [← hr]
          rw [this]
          exact LoopTrace.failed message hlt
      | some c =>
        have hw := receive_eq_some w sock (N - message.length) c hr
        have h2 := receive_world w sock (N - message.length)
        rw [hr] at h2
        have hpair : w.receive sock (N - message.length) =
            (some c, (w.receive sock (N - message.length)).2) := by
          rw [← hr]
        rw [hpair]
        simp only []
        have hlen : (w.receive sock (N - message.length)).2.recvs.length < fuel := by
          rw [h2]
          have hl := congrArg List.length hw
          simp only [List.length_cons] at hl
          simp only []
          omega
        obtain ⟨evs, h3, h4⟩ := ih (w.receive sock (N - message.length)).2 (message ++ c) hlen
        refine ⟨Event.receive sock (N - message.length) (some c) :: evs, ?_, ?_⟩
        · rw [h3, h2]
          simp
        · exact LoopTrace.step message c evs _ hlt h4
    · simp only [hlt, if_false]
      exact ⟨[], by simp, LoopTrace.done message (by omega)⟩

/-- On a `LoopTrace` that succeeds, at least `N` bytes are returned, and
exactly `N` when the loop started with at most `N` bytes and every receive
returned no more than was asked for. -/
theorem LoopTrace.length_ok {sock N : Nat} {message : List Nat} {evs : List Event}
    {r : Option (List Nat)} (t : LoopTrace sock N message evs r) :
    ∀ msg, r = some msg → N ≤ msg.length ∧
      (message.length ≤ N → (∀ e ∈ evs, respectsMax e = true) → msg.length = N) := by
  induction t with
  | done message h =>
    intro msg hm
    cases hm
    exact ⟨h, fun h2 _ => by omega⟩
  | failed message h => intro msg hm; cases hm
  | step message c evs r h _ ih =>
    intro msg hm
    obtain ⟨h1, h2⟩ := ih msg hm
    refine ⟨h1, fun _ hall => h2 ?_ (fun e he => hall e (by simp [he]))⟩
    have := hall (Event.receive sock (N - message.length) (some c)) (by simp)
    simp [respectsMax] at this
    simp only [List.length_append]
    omega

/-- Every run of `read_message` is a `ReadTrace`. -/
theorem read_message_trace (w : World) (sock : Nat) :
    ∃ evs : List Event, (read_message w sock).2.log = w.log ++ evs ∧
      ReadTrace sock evs (read_message w sock).1 ∧
      (∀ e, evs.head? = some e → e = Event.receive sock 128 w.recvs.head?.join) := by
  unfold read_message
  cases hr : (w.receive sock 128).1 with
  | none =>
    have h2 := receive_world w sock 128
    have hpair : w.receive sock 128 = (none, (w.receive sock 128).2) := by rw [← hr]
    have hj : w.recvs.head?.join = none := hr
    rw [hpair]
    refine ⟨[Event.receive sock 128 none], ?_, ReadTrace.closed, ?_⟩
    · simp only [h2, hr]
    · intro e he
      simp at he
      rw [hj, he]
  | some chunk =>
    have hw := receive_eq_some w sock 128 chunk hr
    have h2 := receive_world w sock 128
    have hpair : w.receive sock 128 = (some chunk, (w.receive sock 128).2) := by rw [← hr]
    have hj : w.recvs.head?.join = some chunk := hr
    rw [hpair]
    simp only []
    by_cases hbad : (strtoul chunk).2 = 0 ∨ byteAt chunk (strtoul chunk).2 ≠ NL
    · rw [if_pos hbad]
      refine ⟨[Event.receive sock 128 (some chunk)], ?_, ReadTrace.rejected chunk hbad, ?_⟩
      · simp only [h2, hr]
      · intro e he
        simp at he
        rw [hj, he]
    · rw [if_neg hbad]
      obtain ⟨evs, h3, h4⟩ := read_message_loop_trace sock ((strtoul chunk).1 % 65536)
        ((w.receive sock 128).2.recvs.length + 1) (w.receive sock 128).2
        (chunk.drop ((strtoul chunk).2 + 1)) (by omega)
      refine ⟨Event.receive sock 128 (some chunk) :: evs, ?_,
        ReadTrace.framed chunk evs _ hbad h4, ?_⟩
      · rw [h3, h2, hr]
        simp
      · intro e he
        simp at he
        rw [hj, he]

/-! ## The length line `strtoul` accepts -/

theorem drop_takeWhile_length (p : Nat → Bool) (l : List Nat) :
    l.drop (l.takeWhile p).length = l.dropWhile p := by
  induction l with
  | nil => rfl
  | cons a l ih =>
    by_cases h : p a = true
    · simp [List.takeWhile_cons, List.dropWhile_cons, h, ih]
    · simp [List.takeWhile_cons, List.dropWhile_cons, h]

theorem byteAt_drop (l : List Nat) (n k : Nat) : byteAt (l.drop n) k = byteAt l (n + k) := by
  simp [byteAt, List.getD_eq_getElem?_getD, List.getElem?_drop]

theorem byteAt_takeWhile_length (p : Nat → Bool) (l : List Nat) :
    byteAt l (l.takeWhile p).length = byteAt (l.dropWhile p) 0 := by
  rw [← drop_takeWhile_length p l, byteAt_drop]
  simp

theorem drop_sign (A : List Nat) :
    A.drop (if (A.head? == some 45 || A.head? == some 43) = true then 1 else 0) = stripSign A := by
  cases A with
  | nil => simp [stripSign]
  | cons c t =>
    by_cases h : c = 45 ∨ c = 43
    · have h2 : ((c :: t).head? == some 45 || (c :: t).head? == some 43) = true := by
        rcases h with h | h <;> simp [h]
      simp [stripSign, h, h2]
    · have h2 : ¬ ((c :: t).head? == some 45 || (c :: t).head? == some 43) = true := by
        simp only [not_or] at h
        simp [h.1, h.2]
      simp [stripSign, h, h2]

/-- The digits `scanNumber` takes and the offset it stops at, in terms of the
chunk stripped of white space and sign. -/
theorem scanNumber_eq (chunk : List Nat) :
    scanNumber chunk =
      if ((stripSign (chunk.dropWhile isSpace)).takeWhile isDigit).isEmpty then none
      else some ((chunk.dropWhile isSpace).head? == some 45,
        (stripSign (chunk.dropWhile isSpace)).takeWhile isDigit,
        (chunk.takeWhile isSpace).length
          + (if ((chunk.dropWhile isSpace).head? == some 45
              || (chunk.dropWhile isSpace).head? == some 43) = true then 1 else 0)
          + ((stripSign (chunk.dropWhile isSpace)).takeWhile isDigit).length) := by
  unfold scanNumber
  simp only [drop_takeWhile_length, drop_sign]

theorem strtoul_end (chunk : List Nat) (neg : Bool) (ds : List Nat) (e : Nat)
    (h : scanNumber chunk = some (neg, ds, e)) : (strtoul chunk).2 = e := by
  unfold strtoul
  rw [h]
  simp only []
  split
  · rfl
  · split <;> rfl

theorem takeWhile_ne_NL_digits (ds rest : List Nat) (hd : ∀ d ∈ ds, isDigit d = true) :
    (ds ++ NL :: rest).takeWhile (fun c => c != NL) = ds := by
  induction ds with
  | nil => simp [List.takeWhile_cons]
  | cons d ds ih =>
    have h1 : isDigit d = true := hd d (by simp)
    have h2 : (d != NL) = true := by
      simp [isDigit] at h1
      simp [NL]
      omega
    have h3 := ih (fun x hx => hd x (by simp [hx]))
    simp [List.takeWhile_cons, h2, h3]

/-- A run of digits followed by a newline is a purely numeric line. -/
theorem purelyNumericLine_digits (ds rest : List Nat) (hne : ds ≠ [])
    (hd : ∀ d ∈ ds, isDigit d = true) : purelyNumericLine (ds ++ NL :: rest) = true := by
  unfold purelyNumericLine
  simp only [takeWhile_ne_NL_digits ds rest hd]
  have h1 : ds.isEmpty = false := by
    cases ds with
    | nil => exact absurd rfl hne
    | cons d ds => rfl
  have h2 : ds.all isDigit = true := by
    rw [List.all_eq_true]
    exact hd
  simp [h1, h2]

/-- A chunk that `read_message` does not reject holds, after optional white
space and an optional sign, a purely numeric line. -/
theorem lenientLine_of_accepted (chunk : List Nat)
    (h : ¬ ((strtoul chunk).2 = 0 ∨ byteAt chunk (strtoul chunk).2 ≠ NL)) :
    lenientLine chunk = true := by
  simp only [not_or, ne_eq, not_not] at h
  obtain ⟨he, hb⟩ := h
  have hscan := scanNumber_eq chunk
  by_cases hds : ((stripSign (chunk.dropWhile isSpace)).takeWhile isDigit).isEmpty = true
  · rw [if_pos hds] at hscan
    exfalso
    apply he
    simp [strtoul, hscan]
  · rw [if_neg hds] at hscan
    have hend := strtoul_end chunk _ _ _ hscan
    rw [hend] at hb
    rw [Nat.add_assoc, ← byteAt_drop, ← byteAt_drop, drop_takeWhile_length, drop_sign] at hb
    have hsplit := List.takeWhile_append_dropWhile isDigit (stripSign (chunk.dropWhile isSpace))
    rw [byteAt_takeWhile_length] at hb
    cases hrest : (stripSign (chunk.dropWhile isSpace)).dropWhile isDigit with
    | nil =>
      rw [hrest] at hb
      simp [byteAt, NL] at hb
    | cons c rest =>
      rw [hrest] at hb
      simp [byteAt] at hb
      subst hb
      rw [hrest] at hsplit
      unfold lenientLine
      rw [← hsplit]
      apply purelyNumericLine_digits
      · intro hnil
        apply hds
        rw [hnil]
        rfl
      · intro d hd
        exact (List.mem_takeWhile_imp hd)

theorem dropWhile_head_fails (p : Nat → Bool) :
    ∀ (l : List Nat) (c : Nat) (t : List Nat), l.dropWhile p = c :: t → p c = false := by
  intro l
  induction l with
  | nil => intro c t h; simp at h
  | cons a l ih =>
    intro c t h
    by_cases ha : p a = true
    · rw [List.dropWhile_cons, if_pos ha] at h
      exact ih c t h
    · rw [List.dropWhile_cons, if_neg ha] at h
      cases h
      simpa using ha

/-- Conversely, a chunk that holds a purely numeric line after optional white
space and an optional sign is not rejected by `read_message`. -/
theorem accepted_of_lenientLine (chunk : List Nat) (h : lenientLine chunk = true) :
    ¬ ((strtoul chunk).2 = 0 ∨ byteAt chunk (strtoul chunk).2 ≠ NL) := by
  unfold lenientLine purelyNumericLine at h
  simp only [Bool.and_eq_true, Bool.not_eq_true', decide_eq_true_eq] at h
  obtain ⟨⟨hne, hall⟩, hlen⟩ := h
  have hsplit := List.takeWhile_append_dropWhile (fun c => c != NL)
    (stripSign (chunk.dropWhile isSpace))
  cases hrest : (stripSign (chunk.dropWhile isSpace)).dropWhile (fun c => c != NL) with
  | nil =>
    rw [hrest, List.append_nil] at hsplit
    rw [hsplit] at hlen
    omega
  | cons c rest =>
    have hc := dropWhile_head_fails _ _ c rest hrest
    have hcNL : c = NL := by simpa using hc
    subst hcNL
    rw [hrest] at hsplit
    have hdig : ∀ d ∈ (stripSign (chunk.dropWhile isSpace)).takeWhile (fun c => c != NL),
        isDigit d = true := by
      rw [List.all_eq_true] at hall
      exact hall
    have htw : (stripSign (chunk.dropWhile isSpace)).takeWhile isDigit
        = (stripSign (chunk.dropWhile isSpace)).takeWhile (fun c => c != NL) := by
      conv_lhs => rw [← hsplit]
      exact takeWhile_digits_append _ (NL :: rest) hdig
        (by intro c hc; simp at hc; subst hc; decide)
    have hscan := scanNumber_eq chunk
    rw [htw, hne] at hscan
    simp only [Bool.false_eq_true, if_false] at hscan
    have hend := strtoul_end chunk _ _ _ hscan
    have hpos : ((stripSign (chunk.dropWhile isSpace)).takeWhile (fun c => c != NL)).length ≠ 0 := by
      intro h0
      rw [List.eq_nil_of_length_eq_zero h0] at hne
      simp at hne
    rw [hend]
    simp only [not_or, ne_eq, not_not]
    refine ⟨by omega, ?_⟩
    rw [Nat.add_assoc, ← byteAt_drop, ← byteAt_drop, drop_takeWhile_length, drop_sign]
    conv_lhs => arg 1; rw [← hsplit]
    exact byteAt_append_cons _ NL rest

/-! ## Follow-up receives -/

theorem LoopTrace.followUps {sock N : Nat} {message : List Nat} {evs : List Event}
    {r : Option (List Nat)} (t : LoopTrace sock N message evs r) :
    followUpsOk sock N message.length evs = true := by
  induction t with
  | done message h => rfl
  | failed message h =>
    simp [followUpsOk]
    omega
  | step message c evs r h _ ih =>
    simp only [List.length_append] at ih
    simp [followUpsOk, ih]
    omega

theorem LoopTrace.no_failed {sock N : Nat} {message : List Nat} {evs : List Event}
    {r : Option (List Nat)} (t : LoopTrace sock N message evs r) :
    ∀ msg, r = some msg → ∀ e ∈ evs, e.failed = false := by
  induction t with
  | done message h => intro msg _ e he; simp at he
  | failed message h => intro msg hm; cases hm
  | step message c evs r h _ ih =>
    intro msg hm e he
    rcases List.mem_cons.mp he with he | he
    · subst he; rfl
    · exact ih msg hm e he

theorem LoopTrace.bounded {sock N : Nat} {message : List Nat} {evs : List Event}
    {r : Option (List Nat)} (t : LoopTrace sock N message evs r) :
    (∀ e ∈ evs, goodChunk e = true) → evs.length ≤ N - message.length := by
  induction t with
  | done message h => intro _; simp
  | failed message h =>
    intro hall
    have := hall _ (List.mem_singleton.mpr rfl)
    simp [goodChunk] at this
  | step message c evs r h _ ih =>
    intro hall
    have h1 := hall (Event.receive sock (N - message.length) (some c)) (by simp)
    have h2 := ih (fun e he => hall e (by simp [he]))
    simp [goodChunk] at h1
    simp only [List.length_append] at h2
    simp only [List.length_cons]
    omega

/-- When every receive of the loop returns between 1 and the requested number
of bytes, the loop returns the first `N` bytes of what was accumulated
followed by the stream. -/
theorem read_message_loop_stream (sock N : Nat) :
    ∀ (fuel : Nat) (w : World) (message : List Nat), w.recvs.length < fuel →
      message.length ≤ N →
      (∀ e ∈ (read_message_loop sock N fuel w message).2.log.drop w.log.length,
        goodChunk e = true) →
      (read_message_loop sock N fuel w message).1
        = some ((message ++ streamBytes w.recvs).take N) := by
  intro fuel
  induction fuel with
  | zero => intro w message h; omega
  | succ fuel ih =>
    intro w message hf hle
    unfold read_message_loop
    by_cases hlt : message.length < N
    · simp only [hlt, if_true]
      cases hr : (w.receive sock (N - message.length)).1 with
      | none =>
        have h2 := receive_world w sock (N - message.length)
        rw [hr] at h2
        have hpair : w.receive sock (N - message.length) =
            (none, (w.receive sock (N - message.length)).2) := by rw [← hr]
        rw [hpair]
        simp only [h2, List.drop_left]
        intro hall
        have := hall _ (List.mem_singleton.mpr rfl)
        simp [goodChunk] at this
      | some c =>
        have hw := receive_eq_some w sock (N - message.length) c hr
        have h2 := receive_world w sock (N - message.length)
        rw [hr] at h2
        have hpair : w.receive sock (N - message.length) =
            (some c, (w.receive sock (N - message.length)).2) := by rw [← hr]
        rw [hpair]
        simp only []
        have hlen : (w.receive sock (N - message.length)).2.recvs.length < fuel := by
          rw [h2]
          have hl := congrArg List.length hw
          simp only [List.length_cons] at hl
          simp only []
          omega
        obtain ⟨evs, h3, _⟩ := read_message_loop_trace sock N fuel
          (w.receive sock (N - message.length)).2 (message ++ c) hlen
        have h1log : (w.receive sock (N - message.length)).2.log
            = w.log ++ [Event.receive sock (N - message.length) (some c)] := by rw [h2]
        intro hall
        rw [h3, h1log, List.append_assoc, List.drop_left] at hall
        have hgood := hall (Event.receive sock (N - message.length) (some c)) (by simp)
        simp [goodChunk] at hgood
        have := ih (w.receive sock (N - message.length)).2 (message ++ c) hlen
          (by simp only [List.length_append]; omega)
          (by
            rw [h3, List.drop_left]
            intro e he
            exact hall e (by simp [he]))
        rw [this, h2]
        simp only []
        rw [hw]
        simp [streamBytes]
    · simp only [hlt, if_false]
      intro _
      have : message.length = N := by omega
      rw [List.take_append_of_le_length (by omega), ← this, List.take_length]

/-! ## Failing steps: lemmas -/

theorem quietAfterFailure_split : ∀ (pre : List Event) (k : Nat) (e : Event) (post : List Event),
    quietAfterFailure k (pre ++ e :: post) = true →
    failsAt (k + receiveCount pre) e = true → ∀ x ∈ post, x.isPrint = true := by
  intro pre
  induction pre with
  | nil =>
    intro k e post h hf x hx
    simp [receiveCount] at hf
    simp [quietAfterFailure, hf] at h
    exact h.1 x hx
  | cons a pre ih =>
    intro k e post h hf x hx
    simp only [List.cons_append, quietAfterFailure, Bool.and_eq_true] at h
    apply ih (k + (if a.isReceive then 1 else 0)) e post h.2 _ x hx
    have : receiveCount (a :: pre) = (if a.isReceive then 1 else 0) + receiveCount pre := by
      unfold receiveCount
      rw [List.countP_cons]
      split <;> omega
    rw [this, ← Nat.add_assoc] at hf
    exact hf

theorem noFailure_split : ∀ (pre : List Event) (k : Nat) (e : Event) (post : List Event),
    noFailure k (pre ++ e :: post) = true → failsAt (k + receiveCount pre) e = false := by
  intro pre
  induction pre with
  | nil =>
    intro k e post h
    simp [noFailure] at h
    simp [receiveCount, h.1]
  | cons a pre ih =>
    intro k e post h
    simp only [List.cons_append, noFailure, Bool.and_eq_true] at h
    have := ih (k + (if a.isReceive then 1 else 0)) e post h.2
    have hc : receiveCount (a :: pre) = (if a.isReceive then 1 else 0) + receiveCount pre := by
      unfold receiveCount
      rw [List.countP_cons]
      split <;> omega
    rw [hc, ← Nat.add_assoc]
    exact this

theorem noFailure_append : ∀ (a : List Event) (k : Nat) (b : List Event),
    noFailure k a = true → noFailure (k + receiveCount a) b = true →
    noFailure k (a ++ b) = true := by
  intro a
  induction a with
  | nil => intro k b _ h; simpa [receiveCount] using h
  | cons x a ih =>
    intro k b h1 h2
    simp only [noFailure, Bool.and_eq_true] at h1
    have hc : receiveCount (x :: a) = (if x.isReceive then 1 else 0) + receiveCount a := by
      unfold receiveCount
      rw [List.countP_cons]
      split <;> omega
    rw [hc, ← Nat.add_assoc] at h2
    simp only [List.cons_append, noFailure, Bool.and_eq_true]
    exact ⟨h1.1, ih _ b h1.2 h2⟩

theorem quietAfterFailure_append : ∀ (a : List Event) (k : Nat) (b : List Event),
    noFailure k a = true → quietAfterFailure (k + receiveCount a) b = true →
    quietAfterFailure k (a ++ b) = true := by
  intro a
  induction a with
  | nil => intro k b _ h; simpa [receiveCount] using h
  | cons x a ih =>
    intro k b h1 h2
    simp only [noFailure, Bool.and_eq_true, Bool.not_eq_true'] at h1
    have hc : receiveCount (x :: a) = (if x.isReceive then 1 else 0) + receiveCount a := by
      unfold receiveCount
      rw [List.countP_cons]
      split <;> omega
    rw [hc, ← Nat.add_assoc] at h2
    simp only [List.cons_append, quietAfterFailure, Bool.and_eq_true, h1.1]
    exact ⟨by simp, ih _ b h1.2 h2⟩

/-- Events of the receive loop, from the third receive of a handshake on. -/
theorem LoopTrace.loop_checks {sock N : Nat} {message : List Nat} {evs : List Event}
    {r : Option (List Nat)} (t : LoopTrace sock N message evs r) :
    ∀ k, 2 ≤ k → (∀ x ∈ evs, x.isEngine = false) ∧
      (r = none → ∀ n, quietAfterFailure k (evs ++ [Event.print n]) = true) ∧
      (∀ msg, r = some msg → noFailure k evs = true) := by
  induction t with
  | done message h =>
    intro k _
    refine ⟨by simp, fun hr => (by cases hr), fun _ _ => rfl⟩
  | failed message h =>
    intro k _
    refine ⟨by simp [Event.isEngine], fun _ n => ?_, fun msg hm => by cases hm⟩
    simp [quietAfterFailure, Event.isPrint]
  | step message c evs r h _ ih =>
    intro k hk
    obtain ⟨h1, h2, h3⟩ := ih (k + 1) (by omega)
    have hk0 : (k == 0) = false := by simp; omega
    have hk1 : (k == 1) = false := by simp; omega
    refine ⟨?_, fun hr n => ?_, fun msg hm => ?_⟩
    · intro x hx
      rcases List.mem_cons.mp hx with hx | hx
      · subst hx; rfl
      · exact h1 x hx
    · simp [quietAfterFailure, failsAt, Event.failed, Event.isReceive, hk0, hk1]
      exact h2 hr n
    · simp [noFailure, failsAt, Event.failed, Event.isReceive, hk0, hk1]
      exact h3 msg hm

/-- Events of `read_message` when it is the second receive of a handshake. -/
theorem ReadTrace.frame_checks {sock : Nat} {evs : List Event} {r : Option (List Nat)}
    (t : ReadTrace sock evs r) :
    (∀ x ∈ evs, x.isEngine = false) ∧
    (r = none → ∀ n, quietAfterFailure 1 (evs ++ [Event.print n]) = true) ∧
    (∀ msg, r = some msg → noFailure 1 evs = true) := by
  cases t with
  | closed =>
    refine ⟨by simp [Event.isEngine], fun _ n => ?_, fun msg hm => by cases hm⟩
    simp [quietAfterFailure, Event.isPrint]
  | rejected chunk h =>
    refine ⟨by simp [Event.isEngine], fun _ n => ?_, fun msg hm => by cases hm⟩
    simp [quietAfterFailure, Event.isPrint]
  | framed chunk evs1 r h t =>
    obtain ⟨h1, h2, h3⟩ := t.loop_checks 2 (by omega)
    have hrej : Event.rejectedFrame (Event.receive sock 128 (some chunk)) = false := by
      simp only [not_or, ne_eq, not_not] at h
      simp [Event.rejectedFrame, h.1, h.2]
    refine ⟨?_, fun hr n => ?_, fun msg hm => ?_⟩
    · intro x hx
      rcases List.mem_cons.mp hx with hx | hx
      · subst hx; rfl
      · exact h1 x hx
    · simp only [List.cons_append, quietAfterFailure, failsAt, hrej, Event.failed,
        Event.isReceive]
      simpa using h2 hr n
    · simp only [noFailure, failsAt, hrej, Event.failed, Event.isReceive]
      simpa using h3 msg hm

/-! ## The runs of the handshake -/

theorem make_ok (w : World) (ms : List Bool) (h : w.makes = true :: ms) :
    w.make = (some w.sockets,
      { w with makes := ms, sockets := w.sockets + 1,
               log := w.log ++ [Event.make (some w.sockets)] }) := by
  simp [World.make, h]

theorem make_fail (w : World) (h : ∀ ms, w.makes ≠ true :: ms) :
    w.make = (none, { w with makes := w.makes.tail, log := w.log ++ [Event.make none] }) := by
  unfold World.make
  split
  · next ms hm => exact absurd hm (h ms)
  · rfl

theorem make_cases (w : World) :
    (∃ ms, w.makes = true :: ms) ∨ (∀ ms, w.makes ≠ true :: ms) := by
  cases hm : w.makes with
  | nil => right; intro ms h; cases h
  | cons b t =>
    cases b with
    | true => left; exact ⟨t, rfl⟩
    | false => right; intro ms h; cases h

/-- The events of the context bootstrap are compiles and executes only. -/
theorem contextBootstrap_log (w : World) (script : List Nat) :
    ∃ evs : List Event, (contextBootstrap w script).2.log = w.log ++ evs ∧
      ∀ k, noFailure k evs = true := by
  unfold contextBootstrap
  by_cases h0 : (!w.engine.newGlobalObject) = true
  · rw [if_pos h0]; exact ⟨[], by simp, fun _ => rfl⟩
  rw [if_neg h0]
  by_cases h1 : (!w.engine.defineDebuggerObject) = true
  · rw [if_pos h1]; exact ⟨[], by simp, fun _ => rfl⟩
  rw [if_neg h1]
  by_cases h2 : (!w.engine.defineFunctions) = true
  · rw [if_pos h2]; exact ⟨[], by simp, fun _ => rfl⟩
  rw [if_neg h2]
  by_cases h3 : (!w.engine.initClass) = true
  · rw [if_pos h3]; exact ⟨[], by simp, fun _ => rfl⟩
  rw [if_neg h3]
  by_cases h4 : (!w.engine.fromSocket) = true
  · rw [if_pos h4]; exact ⟨[], by simp, fun _ => rfl⟩
  rw [if_neg h4]
  by_cases h5 : (!w.engine.defineSocket) = true
  · rw [if_pos h5]; exact ⟨[], by simp, fun _ => rfl⟩
  rw [if_neg h5]
  by_cases h6 : (!w.engine.defineFlag) = true
  · rw [if_pos h6]; exact ⟨[], by simp, fun _ => rfl⟩
  rw [if_neg h6]
  by_cases h7 : (!w.engine.sourceInit) = true
  · rw [if_pos h7]; exact ⟨[], by simp, fun _ => rfl⟩
  rw [if_neg h7]
  have hnf : ∀ (k : Nat) (b c : Bool),
      noFailure k [Event.compile script b] = true ∧
      noFailure k [Event.compile script b, Event.execute script c] = true := by
    intro k b c
    simp [noFailure, failsAt, Event.failed, Event.rejectedReply, Event.rejectedFrame,
      Event.isReceive]
  cases hc : w.engine.compile script with
  | false =>
    refine ⟨[Event.compile script false], ?_, fun k => (hnf k false false).1⟩
    simp [World.compile, hc]
  | true =>
    cases hx : w.engine.execute script with
    | false =>
      refine ⟨[Event.compile script true, Event.execute script false], ?_,
        fun k => (hnf k true false).2⟩
      simp [World.compile, World.execute, hc, hx]
    | true =>
      refine ⟨[Event.compile script true, Event.execute script true], ?_,
        fun k => (hnf k true true).2⟩
      simp [World.compile, World.execute, hc, hx]

theorem make_log (w : World) : (w.make).2.log = w.log ++ [Event.make (w.make).1] := by
  unfold World.make
  split <;> rfl

theorem connect_log (w : World) (s : Nat) (a : Nat × Nat × Nat × Nat) (p : Nat) :
    (w.connect s a p).2.log = w.log ++ [Event.connect s a p (w.connect s a p).1] := rfl

theorem send_log (w : World) (s : Nat) (d : List Nat) :
    (w.send s d).2.log = w.log ++ [Event.send s d (w.send s d).1] := rfl

theorem receive_log (w : World) (s max : Nat) :
    (w.receive s max).2.log = w.log ++ [Event.receive s max (w.receive s max).1] := rfl

theorem scriptFetch_checks (w : World) (socket : Nat) :
    ∃ evs : List Event, (scriptFetch w socket).2.log = w.log ++ evs ∧
      RunOk 1 (scriptFetch w socket).1 evs := by
  obtain ⟨evs, hlog, ht, _⟩ := read_message_trace w socket
  obtain ⟨h1, h2, h3⟩ := ht.frame_checks
  unfold scriptFetch
  rcases hrm : read_message w socket with ⟨_ | script, w1⟩
  · rw [hrm] at hlog h2
    refine ⟨evs ++ [Event.print Notice.debuggerScript], ?_, Or.inl ⟨rfl, h2 rfl _, ?_⟩⟩
    · simp only [World.print]
      simp only [] at hlog
      rw [hlog, List.append_assoc]
    · intro x hx
      rcases List.mem_append.mp hx with hx | hx
      · exact h1 x hx
      · simp only [List.mem_singleton] at hx
        subst hx
        rfl
  · rw [hrm] at hlog h3
    obtain ⟨bevs, hb, hnf⟩ := contextBootstrap_log w1 script
    refine ⟨evs ++ bevs, ?_, Or.inr ?_⟩
    · simp only [] at hlog
      simp only [hb, hlog, List.append_assoc]
    · exact noFailure_append evs 1 bevs (h3 script rfl) (hnf _)

theorem sessionPhase_checks (w : World) (sp : Nat) :
    ∃ evs : List Event, (sessionPhase w sp).2.log = w.log ++ evs ∧
      RunOk 1 (sessionPhase w sp).1 evs := by
  unfold sessionPhase
  have hmlog := make_log w
  rcases hmk : w.make with ⟨_ | socket, w1⟩
  · rw [hmk] at hmlog
    exact ⟨[Event.make none], hmlog, Or.inr (by decide)⟩
  · rw [hmk] at hmlog
    simp only [] at hmlog ⊢
    have hclog := connect_log w1 socket (127, 0, 0, 1) sp
    rcases hcn : w1.connect socket (127, 0, 0, 1) sp with ⟨_ | _, w2⟩
    · rw [hcn] at hclog
      simp only [] at hclog ⊢
      refine ⟨[Event.make (some socket), Event.connect socket (127, 0, 0, 1) sp false,
        Event.print (Notice.sessionConnect sp)], ?_, Or.inl ⟨rfl, ?_, ?_⟩⟩
      · simp [World.print, hclog, hmlog]
      · simp [quietAfterFailure, failsAt, Event.failed, Event.isReceive, Event.isPrint,
          Event.rejectedReply, Event.rejectedFrame]
      · simp [Event.isEngine]
    · rw [hcn] at hclog
      simp only [] at hclog ⊢
      have hslog := send_log w2 socket (bytes ("get-debugger"))
      rcases hsn : w2.send socket (bytes ("get-debugger")) with ⟨_ | _, w3⟩
      · rw [hsn] at hslog
        simp only [] at hslog ⊢
        refine ⟨[Event.make (some socket), Event.connect socket (127, 0, 0, 1) sp true,
          Event.send socket (bytes ("get-debugger")) false,
          Event.print (Notice.sessionConnect sp)], ?_, Or.inl ⟨rfl, ?_, ?_⟩⟩
        · simp [World.print, hslog, hclog, hmlog]
        · simp [quietAfterFailure, failsAt, Event.failed, Event.isReceive, Event.isPrint,
            Event.rejectedReply, Event.rejectedFrame]
        · simp [Event.isEngine]
      · rw [hsn] at hslog
        simp only [] at hslog ⊢
        obtain ⟨evs, hlog, hrun⟩ := scriptFetch_checks w3 socket
        refine ⟨[Event.make (some socket), Event.connect socket (127, 0, 0, 1) sp true,
          Event.send socket (bytes ("get-debugger")) true] ++ evs, ?_, ?_⟩
        · simp [hlog, hslog, hclog, hmlog]
        · rcases hrun with ⟨h1, h2, h3⟩ | h4
          · refine Or.inl ⟨h1, ?_, ?_⟩
            · simpa [quietAfterFailure, failsAt, Event.failed, Event.isReceive,
                Event.rejectedReply, Event.rejectedFrame] using h2
            · intro x hx
              simp only [List.cons_append, List.nil_append, List.mem_cons] at hx
              rcases hx with hx | hx | hx | hx
              · subst hx; rfl
              · subst hx; rfl
              · subst hx; rfl
              · exact h3 x hx
          · refine Or.inr ?_
            simpa [noFailure, failsAt, Event.failed, Event.isReceive,
              Event.rejectedReply, Event.rejectedFrame] using h4

theorem initialize_debugger_checks (w : World) (port : Nat) (flag : Bool) :
    ∃ evs : List Event, (initialize_debugger w port flag).2.log = w.log ++ evs ∧
      RunOk 0 (initialize_debugger w port flag).1 evs := by
  unfold initialize_debugger
  have hmlog := make_log w
  rcases hmk : w.make with ⟨_ | socket, w1⟩
  · rw [hmk] at hmlog
    exact ⟨[Event.make none], hmlog, Or.inr (by decide)⟩
  · rw [hmk] at hmlog
    simp only [] at hmlog ⊢
    have hclog := connect_log w1 socket (127, 0, 0, 1) port
    rcases hcn : w1.connect socket (127, 0, 0, 1) port with ⟨_ | _, w2⟩
    · rw [hcn] at hclog
      simp only [] at hclog ⊢
      refine ⟨[Event.make (some socket), Event.connect socket (127, 0, 0, 1) port false,
        Event.print (Notice.brokerConnect port)], ?_, Or.inl ⟨rfl, ?_, ?_⟩⟩
      · simp [World.print, hclog, hmlog]
      · simp [quietAfterFailure, failsAt, Event.failed, Event.isReceive, Event.isPrint,
          Event.rejectedReply, Event.rejectedFrame]
      · simp [Event.isEngine]
    · rw [hcn] at hclog
      simp only [] at hclog ⊢
      have hslog := send_log w2 socket (bytes ("get-session-port"))
      rcases hsn : w2.send socket (bytes ("get-session-port")) with ⟨_ | _, w3⟩
      · rw [hsn] at hslog
        simp only [] at hslog ⊢
        refine ⟨[Event.make (some socket), Event.connect socket (127, 0, 0, 1) port true,
          Event.send socket (bytes ("get-session-port")) false,
          Event.print (Notice.brokerConnect port)], ?_, Or.inl ⟨rfl, ?_, ?_⟩⟩
        · simp [World.print, hslog, hclog, hmlog]
        · simp [quietAfterFailure, failsAt, Event.failed, Event.isReceive, Event.isPrint,
            Event.rejectedReply, Event.rejectedFrame]
        · simp [Event.isEngine]
      · rw [hsn] at hslog
        simp only [] at hslog ⊢
        have hrlog := receive_log w3 socket 128
        rcases hrc : w3.receive socket 128 with ⟨_ | response, w4⟩
        · rw [hrc] at hrlog
          simp only [] at hrlog ⊢
          refine ⟨[Event.make (some socket), Event.connect socket (127, 0, 0, 1) port true,
            Event.send socket (bytes ("get-session-port")) true,
            Event.receive socket 128 none,
            Event.print Notice.sessionPort], ?_, Or.inl ⟨rfl, ?_, ?_⟩⟩
          · simp [World.print, hrlog, hslog, hclog, hmlog]
          · simp [quietAfterFailure, failsAt, Event.failed, Event.isReceive, Event.isPrint,
              Event.rejectedReply, Event.rejectedFrame]
          · simp [Event.isEngine]
        · rw [hrc] at hrlog
          simp only [] at hrlog ⊢
          have h16 : ¬ (strtoul response).1 % 65536 > 65535 := by omega
          by_cases hend : (strtoul response).2 ≠ response.length
          · rw [if_pos (Or.inl hend)]
            refine ⟨[Event.make (some socket), Event.connect socket (127, 0, 0, 1) port true,
              Event.send socket (bytes ("get-session-port")) true,
              Event.receive socket 128 (some response),
              Event.print (Notice.invalidSessionPort response)], ?_, Or.inl ⟨rfl, ?_, ?_⟩⟩
            · simp [World.print, hrlog, hslog, hclog, hmlog]
            · simp [quietAfterFailure, failsAt, Event.failed, Event.isReceive, Event.isPrint,
                Event.rejectedReply, Event.rejectedFrame, hend]
            · simp [Event.isEngine]
          · rw [if_neg (by rintro (h | h); exact hend h; exact h16 h)]
            simp only [ne_eq, not_not] at hend
            obtain ⟨evs, hlog, hrun⟩ := sessionPhase_checks (w4.close socket)
              ((strtoul response).1 % 65536)
            refine ⟨[Event.make (some socket), Event.connect socket (127, 0, 0, 1) port true,
              Event.send socket (bytes ("get-session-port")) true,
              Event.receive socket 128 (some response), Event.close socket] ++ evs, ?_, ?_⟩
            · rw [hlog]
              simp [World.close, hrlog, hslog, hclog, hmlog]
            · rcases hrun with ⟨h1, h2, h3⟩ | h4
              · refine Or.inl ⟨h1, ?_, ?_⟩
                · simpa [quietAfterFailure, failsAt, Event.failed, Event.isReceive,
                    Event.rejectedReply, Event.rejectedFrame, hend] using h2
                · intro x hx
                  simp only [List.cons_append, List.nil_append, List.mem_cons] at hx
                  rcases hx with hx | hx | hx | hx | hx | hx
                  · subst hx; rfl
                  · subst hx; rfl
                  · subst hx; rfl
                  · subst hx; rfl
                  · subst hx; rfl
                  · exact h3 x hx
              · refine Or.inr ?_
                simpa [noFailure, failsAt, Event.failed, Event.isReceive,
                  Event.rejectedReply, Event.rejectedFrame, hend] using h4


/-! ## Override path and socket verb: what holds -/

theorem cString_of_no_nul (t : List Nat) (h : ∀ c ∈ t, c ≠ 0) : cString t = t := by
  unfold cString
  rw [List.takeWhile_eq_self_iff]
  intro c hc
  simpa using h c hc

theorem getLast?_cons_some (t : List Nat) (l : List (List Nat)) :
    (t :: l).getLast? = some (l.getLast?.getD t) := by
  cases l with
  | nil => rfl
  | cons u l => simp [List.getLast?_cons_cons, List.getLast?_eq_getLast, List.getLast?]

theorem setContentPaths_path {V : Type} (encode : V → Option (List Nat)) :
    ∀ (args : List V) (p : Process),
      replacement_script_path (setContentPaths encode args p)
        = (match (args.filterMap encode).getLast? with
          | some t => some (cString t)
          | none => replacement_script_path p) := by
  intro args
  induction args with
  | nil => intro p; rfl
  | cons a args ih =>
    intro p
    have hstep : setContentPaths encode (a :: args) p
        = setContentPaths encode args (dbg_set_content_path encode a p).2 := rfl
    rw [hstep, ih]
    cases h : encode a with
    | none => simp [dbg_set_content_path, h, List.filterMap_cons]
    | some t =>
      simp only [List.filterMap_cons, h, getLast?_cons_some]
      cases (List.filterMap encode args).getLast? with
      | none => simp [dbg_set_content_path, h, replacement_script_path]
      | some u => simp

/-- What `TCPSocket::connect` does once `METHOD_HEADER` has passed: a
non-object address or a failing read of elements 0 to 3 throws
`InvalidAddress`; a failing port conversion throws `InvalidPort`; otherwise
the underlying connect is invoked once, and its failure throws
`ConnectFailed`. -/
theorem TCPSocket_connect_cases {V : Type} (api : ValueApi V) (w : World) (self : Nat)
    (arg0 arg1 : V) :
    (api.isObject arg0 = false ∨ readAddress api arg0 = none →
      TCPSocket.connect api w self true arg0 arg1
        = (MethodResult.threw SocketError.InvalidAddress, w)) ∧
    (∀ address, api.isObject arg0 = true → readAddress api arg0 = some address →
      api.toUint16 arg1 = none →
      TCPSocket.connect api w self true arg0 arg1
        = (MethodResult.threw SocketError.InvalidPort, w)) ∧
    (∀ address port, api.isObject arg0 = true → readAddress api arg0 = some address →
      api.toUint16 arg1 = some port →
      (TCPSocket.connect api w self true arg0 arg1).2.log
        = w.log ++ [Event.connect self address port (w.connects.head? == some true)] ∧
      (TCPSocket.connect api w self true arg0 arg1).1
        = if (w.connects.head? == some true) = true then MethodResult.returned
          else MethodResult.threw SocketError.ConnectFailed) := by
  refine ⟨?_, ?_, ?_⟩
  · rintro (h | h)
    · simp [TCPSocket.connect, h]
    · cases hobj : api.isObject arg0 <;> simp [TCPSocket.connect, h, hobj]
  · intro address hobj ha hp
    simp [TCPSocket.connect, hobj, ha, hp]
  · intro address port hobj ha hp
    cases hc : (w.connects.head? == some true) <;>
      simp [TCPSocket.connect, hobj, ha, hp, World.connect, hc]

/-- C1 (as amended).  For every `n ≤ 65535`, every payload of exactly `n`
bytes and every way of splitting `"<decimal n>\n" ++ payload` into chunks
whose first chunk holds the whole length line `"<decimal n>\n"`,
`read_message` succeeds and returns exactly the payload. -/
theorem read_message_valid_frame (n : Nat) (payload first : List Nat) (later : List (List Nat))
    (rest0 : List Nat) (w : World) (sock : Nat) (tail : List (Option (List Nat)))
    (hn : n ≤ 65535) (hp : payload.length = n)
    (hfirst : first = decimal n ++ NL :: rest0)
    (hsplit : (first :: later).flatten = decimal n ++ NL :: payload)
    (hw : w.recvs = (first :: later).map some ++ tail) :
    (read_message w sock).1 = some payload := by
  subst hfirst
  have hpay : payload = rest0 ++ later.flatten := by
    simp only [List.flatten_cons, List.append_assoc, List.cons_append] at hsplit
    have := List.append_cancel_left hsplit
    simpa using this.symm
  have hmod : n % 65536 = n := Nat.mod_eq_of_lt (by omega)
  rw [read_message_first_chunk n rest0 w sock (later.map some ++ tail)
    (by simp [ULONG_MAX]; omega) (by simpa using hw), hmod, hpay]
  apply read_message_loop_chunks sock n tail later
  · rfl
  · simp only [List.length_append, List.length_map]
    omega
  · rw [← hpay]; exact hp

/-- Witness for C1: the frame `"13\nconsole.log()"` delivered as `"13\ncon"`,
`"sole"`, `".log()"`. -/
theorem read_message_valid_frame_witness :
    (read_message (recvWorld [some (bytes ("13\ncon")), some (bytes ("sole")),
      some (bytes (".log()"))]) 0).1 = some (bytes ("console.log()")) :=
  read_message_valid_frame 13 (bytes ("console.log()")) (bytes ("13\ncon"))
    [bytes ("sole"), bytes (".log()")] (bytes ("con"))
    (recvWorld [some (bytes ("13\ncon")), some (bytes ("sole")), some (bytes (".log()"))]) 0 []
    (by decide) (by decide) (by decide) (by decide) (by decide)

/-- C1 as stated fails.  Delivered one byte per receive, the valid frame
`"1\na"` is rejected: the first chunk `"1"` holds no newline.  And for
`n = 65536` the announced length is stored as 0, so the 122 payload bytes of
the first chunk are returned instead of the 65536-byte payload. -/
theorem read_message_valid_frame_counterexample :
    ([bytes ("1"), bytes ("\n"), bytes ("a")].flatten = decimal 1 ++ NL :: bytes ("a")
      ∧ (read_message (recvWorld [some (bytes ("1")), some (bytes ("\n")),
          some (bytes ("a"))]) 0).1 = none)
    ∧ ([decimal 65536 ++ NL :: List.replicate 122 97, List.replicate 65414 97].flatten
          = decimal 65536 ++ NL :: List.replicate 65536 97
      ∧ (read_message (recvWorld [some (decimal 65536 ++ NL :: List.replicate 122 97),
          some (List.replicate 65414 97)]) 0).1 ≠ some (List.replicate 65536 97)) := by
  refine ⟨⟨by decide, by decide⟩, ?_, ?_⟩
  · have h : List.replicate 65536 97 = List.replicate 122 97 ++ List.replicate 65414 97 := by
      rw [List.append_replicate_replicate]
    simp only [List.flatten_cons, List.flatten_nil, List.append_nil, List.append_assoc,
      List.cons_append, h]
  · rw [read_message_first_chunk 65536 (List.replicate 122 97) _ 0
      [some (List.replicate 65414 97)] (by decide) rfl,
      read_message_loop_done 0 (65536 % 65536) _ _ _ (by simp)]
    intro hc
    have h1 : (List.replicate 122 97).length = (List.replicate 65536 97).length :=
      congrArg List.length (Option.some.inj hc)
    rw [List.length_replicate, List.length_replicate] at h1
    exact absurd h1 (by decide)


/-- C2 (as amended).  Whenever `read_message` succeeds on a first chunk whose
announced length (the value `strtoul` reads from it) is at most 65535, it
returns at least the announced number of payload bytes; it returns exactly
that many when the first chunk carries at most that many bytes after the
newline and every receive of the run returned no more bytes than were asked
for. -/
theorem read_message_length (w : World) (sock : Nat) (first : List Nat)
    (tail : List (Option (List Nat))) (msg : List Nat)
    (hw : w.recvs = some first :: tail)
    (hs : (read_message w sock).1 = some msg)
    (h16 : (strtoul first).1 ≤ 65535) :
    (strtoul first).1 ≤ msg.length ∧
    (first.length - ((strtoul first).2 + 1) ≤ (strtoul first).1 →
      (∀ e ∈ (read_message w sock).2.log.drop w.log.length, respectsMax e = true) →
      msg.length = (strtoul first).1) := by
  obtain ⟨evs, hlog, ht, hhead⟩ := read_message_trace w sock
  have hmod : (strtoul first).1 % 65536 = (strtoul first).1 := Nat.mod_eq_of_lt (by omega)
  rw [hlog]
  simp only [List.drop_left]
  rw [hs] at ht
  cases ht with
  | framed chunk evs1 _ hbad t =>
    have hc : chunk = first := by
      have := hhead _ rfl
      simp [hw] at this
      exact this
    subst hc
    rw [hmod] at t
    obtain ⟨h1, h2⟩ := t.length_ok msg rfl
    refine ⟨h1, fun hfirst hall => h2 ?_ (fun e he => hall e (by simp [he]))⟩
    simpa using hfirst

/-- Witness for C2: the frame `"3\na"` followed by the chunk `"bc"`. -/
theorem read_message_length_witness :
    (read_message (recvWorld [some (bytes ("3\na")), some (bytes ("bc"))]) 0).1
      = some (bytes ("abc")) ∧
    (strtoul (bytes ("3\na"))).1 = 3 ∧
    (strtoul (bytes ("3\na"))).1 ≤ (bytes ("abc")).length ∧
    (bytes ("abc")).length = (strtoul (bytes ("3\na"))).1 := by
  have h := read_message_length
    (recvWorld [some (bytes ("3\na")), some (bytes ("bc"))]) 0 (bytes ("3\na"))
    [some (bytes ("bc"))] (bytes ("abc")) (by decide) (by decide) (by decide)
  exact ⟨by decide, by decide, h.1, h.2 (by decide) (by decide)⟩

/-- C2 as stated fails: the first chunk `"1\nabc"` announces one byte and
`read_message` returns the three bytes `"abc"`. -/
theorem read_message_length_counterexample :
    (strtoul (bytes ("1\nabc"))).1 = 1 ∧
    (read_message (recvWorld [some (bytes ("1\nabc"))]) 0).1 = some (bytes ("abc")) ∧
    (bytes ("abc")).length ≠ 1 := by
  decide


/-- C6 (as amended).  For every first chunk whose length line is malformed as
`strtoul` reads it, meaning that after optional leading white space and one
optional sign the bytes before the first newline are not a non-empty run of
decimal digits (non-numeric, empty, or no newline in the chunk),
`read_message` fails and issues no receive after the first one. -/
theorem read_message_malformed (w : World) (sock : Nat) (chunk : List Nat)
    (tail : List (Option (List Nat)))
    (hw : w.recvs = some chunk :: tail) (hbad : lenientLine chunk = false) :
    (read_message w sock).1 = none ∧
    (read_message w sock).2.log = w.log ++ [Event.receive sock 128 (some chunk)] ∧
    (read_message w sock).2.recvs = tail := by
  have hrej : (strtoul chunk).2 = 0 ∨ byteAt chunk (strtoul chunk).2 ≠ NL := by
    by_contra hacc
    have := lenientLine_of_accepted chunk hacc
    rw [hbad] at this
    exact Bool.false_ne_true this
  have hr := receive_some w sock 128 chunk tail hw
  unfold read_message
  simp only [hr, if_pos hrej, and_self]

/-- Witness for C6: the chunk `"12x\nabc"`, with more data pending. -/
theorem read_message_malformed_witness :
    (read_message (recvWorld [some (bytes ("12x\nabc")), some (bytes ("def"))]) 0).1 = none ∧
    (read_message (recvWorld [some (bytes ("12x\nabc")), some (bytes ("def"))]) 0).2.log
      = [Event.receive 0 128 (some (bytes ("12x\nabc")))] ∧
    (read_message (recvWorld [some (bytes ("12x\nabc")), some (bytes ("def"))]) 0).2.recvs
      = [some (bytes ("def"))] :=
  read_message_malformed (recvWorld [some (bytes ("12x\nabc")), some (bytes ("def"))]) 0
    (bytes ("12x\nabc")) [some (bytes ("def"))] (by decide) (by decide)

/-- C6 as stated fails: in `" 1\na"` and `"+1\na"` the bytes before the first
newline are not purely decimal digits, and in `"\n1\na"` they are empty, yet
`read_message` accepts all three and returns `"a"`. -/
theorem read_message_malformed_counterexample :
    (purelyNumericLine (bytes (" 1\na")) = false ∧
      (read_message (recvWorld [some (bytes (" 1\na"))]) 0).1 = some (bytes ("a"))) ∧
    (purelyNumericLine (bytes ("+1\na")) = false ∧
      (read_message (recvWorld [some (bytes ("+1\na"))]) 0).1 = some (bytes ("a"))) ∧
    (purelyNumericLine (bytes ("\n1\na")) = false ∧
      (read_message (recvWorld [some (bytes ("\n1\na"))]) 0).1 = some (bytes ("a"))) := by
  decide


/-- C10.  For every `N ≤ 65535` and every stream whose first chunk is the
decimal numeral of `N`, a newline and at most `N` further bytes: the first
receive is followed by receives that each ask for exactly `N` minus the bytes
accumulated so far, a number between 1 and `N`; if each of them returns
between 1 and the requested number of bytes, `read_message` succeeds after at
most `N` of them and returns exactly the first `N` payload bytes of the
stream; if one of them fails, `read_message` fails; and for `N = 0` there is
no further receive and the payload is empty. -/
theorem read_message_frame (N : Nat) (rest0 : List Nat) (w : World) (sock : Nat)
    (later : List (Option (List Nat)))
    (hN : N ≤ 65535) (hrest : rest0.length ≤ N)
    (hw : w.recvs = some (decimal N ++ NL :: rest0) :: later) :
    ∃ evs : List Event,
      (read_message w sock).2.log
        = w.log ++ Event.receive sock 128 (some (decimal N ++ NL :: rest0)) :: evs ∧
      followUpsOk sock N rest0.length evs = true ∧
      ((∀ e ∈ evs, goodChunk e = true) →
        (read_message w sock).1 = some ((rest0 ++ streamBytes later).take N) ∧
        evs.length ≤ N - rest0.length) ∧
      ((∃ e ∈ evs, e.failed = true) → (read_message w sock).1 = none) ∧
      (N = 0 → evs = [] ∧ (read_message w sock).1 = some []) := by
  have hmod : N % 65536 = N := Nat.mod_eq_of_lt (by omega)
  have hfirst := read_message_first_chunk N rest0 w sock later
    (by simp [ULONG_MAX]; omega) hw
  rw [hmod] at hfirst
  obtain ⟨evs, hlog, ht⟩ := read_message_loop_trace sock N (later.length + 1)
    { w with recvs := later,
             log := w.log ++ [Event.receive sock 128 (some (decimal N ++ NL :: rest0))] }
    rest0 (by simp)
  rw [← hfirst] at hlog ht
  refine ⟨evs, by simpa using hlog, ht.followUps, ?_, ?_, ?_⟩
  · intro hall
    refine ⟨?_, ht.bounded hall⟩
    have := read_message_loop_stream sock N (later.length + 1)
      { w with recvs := later,
               log := w.log ++ [Event.receive sock 128 (some (decimal N ++ NL :: rest0))] }
      rest0 (by simp) hrest
    rw [← hfirst, hlog] at this
    simp only [List.drop_left] at this
    exact this hall
  · rintro ⟨e, he, hf⟩
    cases hres : (read_message w sock).1 with
    | none => rfl
    | some msg =>
      have := ht.no_failed msg hres e he
      rw [hf] at this
      exact absurd this (by decide)
  · intro h0
    subst h0
    have hnil : rest0 = [] := List.eq_nil_of_length_eq_zero (by omega)
    subst hnil
    rw [hfirst, read_message_loop_done sock 0 later.length _ [] (by simp)] at hlog
    refine ⟨by simpa using hlog, ?_⟩
    rw [hfirst, read_message_loop_done sock 0 later.length _ [] (by simp)]

/-- Witness for C10: the frame `"5\nhe"` followed by the chunks `"l"` and
`"lo"`, with more bytes pending on the stream. -/
theorem read_message_frame_witness :
    ∃ evs : List Event,
      (read_message (recvWorld [some (decimal 5 ++ NL :: bytes ("he")), some (bytes ("l")),
          some (bytes ("lo")), some (bytes ("xyz"))]) 0).2.log
        = [] ++ Event.receive 0 128 (some (decimal 5 ++ NL :: bytes ("he"))) :: evs ∧
      followUpsOk 0 5 (bytes ("he")).length evs = true ∧
      ((∀ e ∈ evs, goodChunk e = true) →
        (read_message (recvWorld [some (decimal 5 ++ NL :: bytes ("he")), some (bytes ("l")),
          some (bytes ("lo")), some (bytes ("xyz"))]) 0).1
          = some ((bytes ("he") ++ streamBytes [some (bytes ("l")), some (bytes ("lo")),
              some (bytes ("xyz"))]).take 5) ∧
        evs.length ≤ 5 - (bytes ("he")).length) ∧
      ((∃ e ∈ evs, e.failed = true) →
        (read_message (recvWorld [some (decimal 5 ++ NL :: bytes ("he")), some (bytes ("l")),
          some (bytes ("lo")), some (bytes ("xyz"))]) 0).1 = none) ∧
      (5 = 0 → evs = [] ∧
        (read_message (recvWorld [some (decimal 5 ++ NL :: bytes ("he")), some (bytes ("l")),
          some (bytes ("lo")), some (bytes ("xyz"))]) 0).1 = some []) :=
  read_message_frame 5 (bytes ("he"))
    (recvWorld [some (decimal 5 ++ NL :: bytes ("he")), some (bytes ("l")),
      some (bytes ("lo")), some (bytes ("xyz"))]) 0
    [some (bytes ("l")), some (bytes ("lo")), some (bytes ("xyz"))]
    (by decide) (by decide) (by decide)


/-- C4.  In every run of `initialize_debugger` in which a step fails (a
broker or session connect, a send or a receive fails, the broker reply is
not consumed in full by the decimal parse, or the first chunk of the framed
script is rejected), `initialize_debugger` returns `true`, only notices
follow the failing step (no connect, send or receive, and so no session
connect after a failed broker connect), no script is compiled or executed,
and `maybe_init_debugger` leaves the process running. -/
theorem initialize_debugger_degrades (w : World) (port : Nat) (flag : Bool)
    (pre post : List Event) (e : Event)
    (hlog : (initialize_debugger w port flag).2.log = w.log ++ (pre ++ e :: post))
    (hfail : failsAt (receiveCount pre) e = true) :
    (initialize_debugger w port flag).1 = some true ∧
    (∀ x ∈ post, x.isPrint = true) ∧
    (∀ x ∈ pre ++ e :: post, x.isEngine = false) ∧
    (∀ (p : Process) (str : List Nat) (v : Int), p.debugger_initialized = false →
      p.world = w → stoi str = some v → (v % 4294967296).toNat % 65536 = port →
      (maybe_init_debugger (some str) flag p).status = p.status) := by
  obtain ⟨evs, hl, hrun⟩ := initialize_debugger_checks w port flag
  have hevs : evs = pre ++ e :: post := by
    rw [hl] at hlog
    exact List.append_cancel_left hlog
  subst hevs
  rcases hrun with ⟨h1, h2, h3⟩ | h4
  · refine ⟨h1, quietAfterFailure_split pre 0 e post h2 (by simpa using hfail), h3, ?_⟩
    intro p str v hinit hworld hstoi hport
    unfold maybe_init_debugger
    simp only [hinit, hstoi, hport, hworld]
    rcases hrun : initialize_debugger w port flag with ⟨r, w1⟩
    rw [hrun] at h1
    simp only [] at h1
    subst h1
    simp
  · have := noFailure_split pre 0 e post h4
    simp only [Nat.zero_add] at this
    rw [hfail] at this
    exact absurd this (by decide)

/-- Witness for C4: the broker connect is refused. -/
theorem initialize_debugger_degrades_witness :
    (initialize_debugger (mkWorld [true, true] [false, true] [true, true]
      [some (bytes ("4242"))]) 9229 false).1 = some true ∧
    (∀ x ∈ [Event.print (Notice.brokerConnect 9229)], x.isPrint = true) ∧
    (∀ x ∈ [Event.make (some 0)] ++ Event.connect 0 (127, 0, 0, 1) 9229 false
        :: [Event.print (Notice.brokerConnect 9229)], x.isEngine = false) ∧
    (∀ (p : Process) (str : List Nat) (v : Int), p.debugger_initialized = false →
      p.world = mkWorld [true, true] [false, true] [true, true] [some (bytes ("4242"))] →
      stoi str = some v → (v % 4294967296).toNat % 65536 = 9229 →
      (maybe_init_debugger (some str) false p).status = p.status) :=
  initialize_debugger_degrades
    (mkWorld [true, true] [false, true] [true, true] [some (bytes ("4242"))]) 9229 false
    [Event.make (some 0)] [Event.print (Notice.brokerConnect 9229)]
    (Event.connect 0 (127, 0, 0, 1) 9229 false) (by decide) (by decide)


/-- C3: the run of `initialize_debugger` on the broker reply `"70000"`.  The
reply is stored in a `uint16_t` as 4464, the test `session_port > 65535`
does not fire, and the handshake goes on: the session socket is connected to
port 4464, `get-debugger` is sent, and the fetched script is compiled and
executed. -/
theorem initialize_debugger_reply_70000 :
    (initialize_debugger (mkWorld [true, true] [true, true] [true, true]
      [some (bytes ("70000")), some (bytes ("13\nconsole.log()"))]) 9229 false).1 = some true ∧
    (initialize_debugger (mkWorld [true, true] [true, true] [true, true]
      [some (bytes ("70000")), some (bytes ("13\nconsole.log()"))]) 9229 false).2.log =
      [Event.make (some 0),
       Event.connect 0 (127, 0, 0, 1) 9229 true,
       Event.send 0 (bytes ("get-session-port")) true,
       Event.receive 0 128 (some (bytes ("70000"))),
       Event.close 0,
       Event.make (some 1),
       Event.connect 1 (127, 0, 0, 1) 4464 true,
       Event.send 1 (bytes ("get-debugger")) true,
       Event.receive 1 128 (some (bytes ("13\nconsole.log()"))),
       Event.compile (bytes ("console.log()")) true,
       Event.execute (bytes ("console.log()")) true] := by
  decide

/-- C5 (as amended).  For every port `p ≤ 65535`: if the broker connect and
the send of `get-session-port` succeed, the broker reply is exactly the
decimal numeral of `p` and the session socket is created, then
`initialize_debugger` closes the broker socket and its next connect targets
exactly `127.0.0.1` and port `p`; when that connect succeeds the next step is
a send of `get-debugger` on the session socket, and when it fails only the
notice follows. -/
theorem initialize_debugger_session_port (p : Nat) (w : World) (port : Nat) (flag : Bool)
    (mk cn sn : List Bool) (rv : List (Option (List Nat)))
    (hp : p ≤ 65535) (hmk : w.makes = true :: true :: mk) (hcn : w.connects = true :: cn)
    (hsn : w.sends = true :: sn) (hrv : w.recvs = some (decimal p) :: rv) :
    ∃ rest : List Event,
      (initialize_debugger w port flag).2.log =
        w.log ++ [Event.make (some w.sockets),
          Event.connect w.sockets (127, 0, 0, 1) port true,
          Event.send w.sockets (bytes ("get-session-port")) true,
          Event.receive w.sockets 128 (some (decimal p)),
          Event.close w.sockets,
          Event.make (some (w.sockets + 1)),
          Event.connect (w.sockets + 1) (127, 0, 0, 1) p (cn.head? == some true)] ++ rest ∧
      (cn.head? = some true → ∃ ok rest2,
        rest = Event.send (w.sockets + 1) (bytes ("get-debugger")) ok :: rest2) ∧
      (cn.head? ≠ some true → rest = [Event.print (Notice.sessionConnect p)]) := by
  have hst : strtoul (decimal p) = (p, (decimal p).length) := by
    have := strtoul_decimal p [] (by simp [ULONG_MAX]; omega) (by simp)
    simpa using this
  have hmod : p % 65536 = p := Nat.mod_eq_of_lt (by omega)
  have h16 : ¬ p > 65535 := by omega
  unfold initialize_debugger
  rw [make_ok w (true :: mk) hmk]
  simp only [World.connect, hcn, World.send, hsn, List.head?_cons, beq_self_eq_true,
    List.tail_cons]
  simp only [World.receive, hrv, List.head?_cons, List.tail_cons, Option.join, Option.bind,
    id_eq, hst, hmod, h16, ne_eq, not_true_eq_false, or_self, if_false]
  unfold sessionPhase
  rw [make_ok _ mk rfl]
  simp only [World.close, World.connect, World.send, List.head?_cons, List.tail_cons]
  cases hc : (cn.head? == some true) with
  | false =>
    simp only []
    refine ⟨[Event.print (Notice.sessionConnect p)], ?_, ?_, fun _ => rfl⟩
    · simp [World.print]
    · intro h
      rw [h] at hc
      simp at hc
  | true =>
    simp only []
    cases hs : (sn.head? == some true) with
    | false =>
      simp only []
      refine ⟨[Event.send (w.sockets + 1) (bytes ("get-debugger")) false,
        Event.print (Notice.sessionConnect p)], ?_, fun _ => ⟨false, _, rfl⟩, ?_⟩
      · simp [World.print]
      · intro h
        simp at hc
        exact absurd hc h
    | true =>
      simp only []
      obtain ⟨evs, hlog, _⟩ := scriptFetch_checks
        { w with makes := mk, connects := cn.tail, sends := sn.tail, recvs := rv,
                 sockets := w.sockets + 1 + 1,
                 log := w.log ++ [Event.make (some w.sockets),
                   Event.connect w.sockets (127, 0, 0, 1) port true,
                   Event.send w.sockets (bytes ("get-session-port")) true,
                   Event.receive w.sockets 128 (some (decimal p)),
                   Event.close w.sockets,
                   Event.make (some (w.sockets + 1)),
                   Event.connect (w.sockets + 1) (127, 0, 0, 1) p true,
                   Event.send (w.sockets + 1) (bytes ("get-debugger")) true] }
        (w.sockets + 1)
      refine ⟨Event.send (w.sockets + 1) (bytes ("get-debugger")) true :: evs, ?_,
        fun _ => ⟨true, evs, rfl⟩, ?_⟩
      · simp only [List.append_assoc, List.cons_append, List.nil_append] at hlog ⊢
        exact hlog
      · intro h
        simp at hc
        exact absurd hc h

/-- Witness for C5: the broker replies `"9999"`. -/
theorem initialize_debugger_session_port_witness :
    ∃ rest : List Event,
      (initialize_debugger (mkWorld [true, true] [true, true] [true, true]
          [some (decimal 9999), some (bytes ("2\nhi"))]) 9229 false).2.log =
        [] ++ [Event.make (some 0),
          Event.connect 0 (127, 0, 0, 1) 9229 true,
          Event.send 0 (bytes ("get-session-port")) true,
          Event.receive 0 128 (some (decimal 9999)),
          Event.close 0,
          Event.make (some (0 + 1)),
          Event.connect (0 + 1) (127, 0, 0, 1) 9999 ([true].head? == some true)] ++ rest ∧
      ([true].head? = some true → ∃ ok rest2,
        rest = Event.send (0 + 1) (bytes ("get-debugger")) ok :: rest2) ∧
      ([true].head? ≠ some true → rest = [Event.print (Notice.sessionConnect 9999)]) :=
  initialize_debugger_session_port 9999
    (mkWorld [true, true] [true, true] [true, true]
      [some (decimal 9999), some (bytes ("2\nhi"))]) 9229 false [] [true] [true]
    [some (bytes ("2\nhi"))] (by decide) rfl rfl rfl rfl

/-- C5 as stated fails.  When the session connect is refused, the connect to
port 9999 is followed by the notice and by no send of `get-debugger`; when
the session socket cannot be created, the run stops on the release assertion
and there is no second connect at all. -/
theorem initialize_debugger_session_port_counterexample :
    ((initialize_debugger (mkWorld [true, true] [true, false] [true, true]
        [some (decimal 9999)]) 9229 false).2.log =
      [Event.make (some 0),
       Event.connect 0 (127, 0, 0, 1) 9229 true,
       Event.send 0 (bytes ("get-session-port")) true,
       Event.receive 0 128 (some (decimal 9999)),
       Event.close 0,
       Event.make (some 1),
       Event.connect 1 (127, 0, 0, 1) 9999 false,
       Event.print (Notice.sessionConnect 9999)]) ∧
    ((initialize_debugger (mkWorld [true, false] [true, true] [true, true]
        [some (decimal 9999)]) 9229 false).1 = none ∧
     (initialize_debugger (mkWorld [true, false] [true, true] [true, true]
        [some (decimal 9999)]) 9229 false).2.log =
      [Event.make (some 0),
       Event.connect 0 (127, 0, 0, 1) 9229 true,
       Event.send 0 (bytes ("get-session-port")) true,
       Event.receive 0 128 (some (decimal 9999)),
       Event.close 0,
       Event.make none]) := by
  decide


/-- C7.  After a first call of `maybe_init_debugger`, whatever its outcome and
whatever `DEBUGGER_PORT` holds at each call, every later call leaves the
whole process (environment and log, guard, override path, status) unchanged;
the guard is set; and the environment after the first call is the one before
it or the one a single run of `initialize_debugger` produced. -/
theorem maybe_init_debugger_once (first : Option (List Nat) × Bool)
    (later : List (Option (List Nat) × Bool)) (p : Process) :
    later.foldl (fun q c => maybe_init_debugger c.1 c.2 q)
        (maybe_init_debugger first.1 first.2 p)
      = maybe_init_debugger first.1 first.2 p ∧
    (maybe_init_debugger first.1 first.2 p).debugger_initialized = true ∧
    ((maybe_init_debugger first.1 first.2 p).world = p.world ∨
      ∃ port, (maybe_init_debugger first.1 first.2 p).world
        = (initialize_debugger p.world port first.2).2) := by
  have hset : (maybe_init_debugger first.1 first.2 p).debugger_initialized = true := by
    unfold maybe_init_debugger
    by_cases h : p.debugger_initialized = true
    · simp [h]
    · simp only [h]
      cases first.1 with
      | none => rfl
      | some str =>
        simp only []
        cases stoi str with
        | none => rfl
        | some v =>
          simp only []
          rcases initialize_debugger p.world ((v % 4294967296).toNat % 65536) first.2
            with ⟨_ | _ | _, w⟩ <;> rfl
  have hnoop : ∀ (q : Process), q.debugger_initialized = true →
      ∀ cs : List (Option (List Nat) × Bool),
        cs.foldl (fun q c => maybe_init_debugger c.1 c.2 q) q = q := by
    intro q hq cs
    induction cs with
    | nil => rfl
    | cons c cs ih =>
      simp only [List.foldl_cons]
      have : maybe_init_debugger c.1 c.2 q = q := by
        unfold maybe_init_debugger
        simp [hq]
      rw [this]
      exact ih
  refine ⟨hnoop _ hset later, hset, ?_⟩
  unfold maybe_init_debugger
  by_cases h : p.debugger_initialized = true
  · simp [h]
  · simp only [h]
    cases first.1 with
    | none => left; rfl
    | some str =>
      simp only []
      cases stoi str with
      | none => left; rfl
      | some v =>
        simp only []
        right
        refine ⟨(v % 4294967296).toNat % 65536, ?_⟩
        rcases initialize_debugger p.world ((v % 4294967296).toNat % 65536) first.2
          with ⟨_ | _ | _, w⟩ <;> rfl

/-- C8 (as amended).  `replacement_script_path` returns the unset value at
start-up and in every state reached before a successful `setContentPath`
call; after any sequence of `setContentPath` calls it returns the encoded
text of the argument of the most recent successful call up to its first NUL
byte, which is the whole text for every text value without a NUL byte; and a
call whose argument cannot be encoded leaves the stored path unchanged. -/
theorem override_path_last_value {V : Type} (encode : V → Option (List Nat)) (args : List V)
    (p : Process) (w : World) :
    replacement_script_path (initialProcess w) = none ∧
    replacement_script_path (setContentPaths encode args p)
      = (match (args.filterMap encode).getLast? with
        | some t => some (cString t)
        | none => replacement_script_path p) ∧
    (∀ t, (args.filterMap encode).getLast? = some t → (∀ c ∈ t, c ≠ 0) →
      replacement_script_path (setContentPaths encode args p) = some t) ∧
    (∀ a, encode a = none → dbg_set_content_path encode a p = (false, p)) := by
  refine ⟨rfl, setContentPaths_path encode args p, ?_, ?_⟩
  · intro t ht hnul
    rw [setContentPaths_path encode args p, ht]
    simp only [cString_of_no_nul t hnul]
  · intro a h
    simp [dbg_set_content_path, h]

/-- Witness for C8: the calls `setContentPath("x.js")`, a call whose argument
cannot be encoded, and `setContentPath("main.js")`. -/
theorem override_path_last_value_witness :
    replacement_script_path (setContentPaths (fun v : Option (List Nat) => v)
      [some (bytes ("x.js")), none, some (bytes ("main.js"))]
      (initialProcess (recvWorld []))) = some (bytes ("main.js")) :=
  (override_path_last_value (fun v : Option (List Nat) => v)
    [some (bytes ("x.js")), none, some (bytes ("main.js"))]
    (initialProcess (recvWorld [])) (recvWorld [])).2.2.1 (bytes ("main.js"))
    (by decide) (by decide)

/-- C8 as stated fails for a text value with an embedded NUL:
`setContentPath` called with the text `a`, NUL, `b` succeeds and the accessor
then returns `a`, because the `std::string` assigned from the `char *` of the
encoded text ends at its first NUL byte. -/
theorem override_path_last_value_counterexample :
    (dbg_set_content_path (fun t : List Nat => some t) (bytes ("a") ++ 0 :: bytes ("b"))
      (initialProcess (recvWorld []))).1 = true ∧
    replacement_script_path (dbg_set_content_path (fun t : List Nat => some t)
      (bytes ("a") ++ 0 :: bytes ("b")) (initialProcess (recvWorld []))).2
      = some (bytes ("a")) ∧
    some (bytes ("a")) ≠ some (bytes ("a") ++ 0 :: bytes ("b")) := by
  decide

/-- C9: `socket.connect([127, 0, 0, 1, 9], 80)` and `socket.connect([127, 0], 80)`.
Neither address is an array of four bytes, yet no `InvalidAddress` is
thrown: the underlying connect is invoked with `127.0.0.1` and with
`127.0.0.0`. -/
theorem TCPSocket_connect_wrong_length :
    (TCPSocket.connect jsApi (mkWorld [] [true] [] []) 0 true
        (jsArray [127, 0, 0, 1, 9]) (jsNumber 80)).1 = MethodResult.returned ∧
    (TCPSocket.connect jsApi (mkWorld [] [true] [] []) 0 true
        (jsArray [127, 0, 0, 1, 9]) (jsNumber 80)).2.log
      = [Event.connect 0 (127, 0, 0, 1) 80 true] ∧
    (TCPSocket.connect jsApi (mkWorld [] [true] [] []) 0 true
        (jsArray [127, 0]) (jsNumber 80)).1 = MethodResult.returned ∧
    (TCPSocket.connect jsApi (mkWorld [] [true] [] []) 0 true
        (jsArray [127, 0]) (jsNumber 80)).2.log
      = [Event.connect 0 (127, 0, 0, 0) 80 true] := by
  decide

end Debugger
